import Mathlib

/-!
Verification of the CasperLabs execution-engine core against its
natural-language specification.

Shallow embedding of the relevant Rust sources:

  * `execution-engine/common/src/key.rs` — `AccessRights`, `Key`, their
    `ToBytes`/`FromBytes` instances, `Key::normalize`;
  * `execution-engine/common/src/value/mod.rs` — the `Value` sum type and
    its serialization;
  * `execution-engine/common/src/value/u512.rs` — `U512` serialization;
  * `execution-engine/storage/src/gs/inmem.rs` — the in-memory global
    state (`InMemGS`): `checkout`, `commit`, `get_root_hash`;
  * `execution-engine/engine/src/engine.rs` — `EngineState::query_state`
    and `run_deploy`;
  * `execution-engine/comm/src/engine_server/mod.rs` — `run_deploys`;
  * `execution-engine/engine/src/engine_state/genesis.rs` —
    `create_uref`, `create_mint_effects`, `create_pos_effects`,
    `create_genesis_effects`.

Machine integers are modelled as `Nat`/`Int` with explicit ranges; byte
strings as `List Nat` with a well-formedness predicate (`each < 256`);
Rust `HashMap`s as association lists whose order stands for the map's
iteration order; fallible code returns `Except`.

The crate `common/src/bytesrepr.rs` (primitive `ToBytes`/`FromBytes`
instances), the `Transform` algebra (`storage/src/transform.rs`,
`shared/src/transform.rs`), the `Account`/`Contract` structs
(`common/src/value/account.rs`, `contract.rs`) and the `TrackingCopy`
are not among the repository files; those parts are modelled from the
spec and carry a `Modelled from the spec:` doc comment.
-/

namespace CasperLabs

/-- Serialization error type of `common/src/bytesrepr.rs`: `FormattingError`
(unknown tag or malformed payload) or `EarlyEndOfStream`. -/
inductive BrError where
  | formattingError
  | earlyEndOfStream
deriving DecidableEq, Repr

/-- A Rust byte string (`&[u8]` / `Vec<u8>`): a list of naturals, well
formed when every entry is below 256. -/
abbrev Bytes := List Nat

/-- Every entry of the byte string is an actual byte. -/
def wfBytes (b : Bytes) : Prop := ∀ x ∈ b, x < 256

instance (b : Bytes) : Decidable (wfBytes b) := List.decidableBAll _ b

/-- A Rust `String`, modelled by its UTF-8 bytes. -/
abbrev RStr := List Nat

/-- Lean's own string type, under a name that the `Value.String`
constructor cannot shadow (used for `Value::type_string` labels). -/
abbrev LStr := String

/-! ## Primitive serializers, modelled from the spec.

Modelled from the spec: `common/src/bytesrepr.rs` is not among the
repository files; §4.1 fixes the contract — "canonical bytes
(little-endian integers; length-prefixed variable data; 1-byte tag for
each sum variant; size-prefixed collections with `u32` length)" and
errors `FormattingError` / `EarlyEndOfStream`. -/

/-- The `?` operator on `bytesrepr` results: pass a success on to the
continuation, return an error as is. -/
def brBind (x : Except BrError (α × Bytes)) (f : α → Bytes → Except BrError β) :
    Except BrError β :=
  match x with
  | .error e => .error e
  | .ok (a, rest) => f a rest

theorem brBind_ok (a : α) (rest : Bytes) (f : α → Bytes → Except BrError β) :
    brBind (.ok (a, rest)) f = f a rest := rfl

theorem brBind_error (e : BrError) (f : α → Bytes → Except BrError β) :
    brBind (.error e) f = .error e := rfl

/-- Inversion: a successful `brBind` came from a successful step. -/
theorem brBind_ok_inv {x : Except BrError (α × Bytes)} {f : α → Bytes → Except BrError β}
    {b : β} (h : brBind x f = .ok b) : ∃ a rest, x = .ok (a, rest) ∧ f a rest = .ok b := by
  cases x with
  | error e => exact absurd h (by rw [brBind_error]; intro hc; cases hc)
  | ok p => exact ⟨p.1, p.2, rfl, h⟩

/-- Modelled from the spec: `u8::to_bytes`, one byte. -/
def u8ToBytes (n : Nat) : Bytes := [n]

/-- Modelled from the spec: `u8::from_bytes`. -/
def u8FromBytes : Bytes → Except BrError (Nat × Bytes)
  | [] => .error .earlyEndOfStream
  | b :: rest => .ok (b, rest)

/-- Modelled from the spec: `u32::to_bytes`, four little-endian bytes. -/
def u32ToBytes (n : Nat) : Bytes :=
  [n % 256, n / 256 % 256, n / 65536 % 256, n / 16777216 % 256]

/-- Modelled from the spec: `u32::from_bytes`. -/
def u32FromBytes : Bytes → Except BrError (Nat × Bytes)
  | b0 :: b1 :: b2 :: b3 :: rest =>
      .ok (b0 + 256 * b1 + 65536 * b2 + 16777216 * b3, rest)
  | _ => .error .earlyEndOfStream

/-- Modelled from the spec: `u64::to_bytes`, eight little-endian bytes. -/
def u64ToBytes (n : Nat) : Bytes :=
  [n % 256, n / 256 % 256, n / 65536 % 256, n / 16777216 % 256,
   n / 4294967296 % 256, n / 1099511627776 % 256,
   n / 281474976710656 % 256, n / 72057594037927936 % 256]

/-- Modelled from the spec: `u64::from_bytes`. -/
def u64FromBytes : Bytes → Except BrError (Nat × Bytes)
  | b0 :: b1 :: b2 :: b3 :: b4 :: b5 :: b6 :: b7 :: rest =>
      .ok (b0 + 256 * b1 + 65536 * b2 + 16777216 * b3 + 4294967296 * b4 +
        1099511627776 * b5 + 281474976710656 * b6 +
        72057594037927936 * b7, rest)
  | _ => .error .earlyEndOfStream

/-- Modelled from the spec: `i32::to_bytes`, the two's-complement image in
four little-endian bytes. -/
def i32ToBytes (i : Int) : Bytes := u32ToBytes (i % 4294967296).toNat

/-- Modelled from the spec: `i32::from_bytes`. -/
def i32FromBytes (b : Bytes) : Except BrError (Int × Bytes) :=
  brBind (u32FromBytes b) (fun n rest =>
    .ok (if n < 2147483648 then (n : Int) else (n : Int) - 4294967296, rest))

/-- `bytesrepr::safe_split_at` (named in `u512.rs`): the first `n` bytes and
the rest, or `EarlyEndOfStream` when fewer than `n` remain. -/
def safeSplitAt (n : Nat) (b : Bytes) : Except BrError (Bytes × Bytes) :=
  if n ≤ b.length then .ok (b.take n, b.drop n) else .error .earlyEndOfStream

/-- Modelled from the spec: `Vec<u8>::to_bytes`, a `u32` length then the
raw bytes. -/
def vecU8ToBytes (v : Bytes) : Bytes := u32ToBytes v.length ++ v

/-- Modelled from the spec: `Vec<u8>::from_bytes`. -/
def vecU8FromBytes (b : Bytes) : Except BrError (Bytes × Bytes) :=
  brBind (u32FromBytes b) (fun n rest => safeSplitAt n rest)

/-- Modelled from the spec: `[u8; 32]::to_bytes` is `Vec<u8>` serialization
(the sizes in `key.rs` include `U32_SIZE` for every 32-byte address). -/
def arr32ToBytes (a : Bytes) : Bytes := vecU8ToBytes a

/-- Modelled from the spec: `[u8; 32]::from_bytes`, a byte vector whose
length must be exactly 32. -/
def arr32FromBytes (b : Bytes) : Except BrError (Bytes × Bytes) :=
  brBind (vecU8FromBytes b) (fun v rest =>
    if v.length = 32 then .ok (v, rest) else .error .formattingError)

/-- Modelled from the spec: `String::to_bytes` = its UTF-8 bytes,
length-prefixed. -/
def strToBytes (s : RStr) : Bytes := vecU8ToBytes s

/-- Modelled from the spec: `String::from_bytes`. -/
def strFromBytes (b : Bytes) : Except BrError (RStr × Bytes) := vecU8FromBytes b

/-- Count-indexed element loop shared by every size-prefixed collection
decoder (mirrors the `for _ in 0..size` loops of the source). -/
def listFromBytesAux (dec : Bytes → Except BrError (α × Bytes)) :
    Nat → Bytes → Except BrError (List α × Bytes)
  | 0, b => .ok ([], b)
  | n + 1, b =>
      brBind (dec b) (fun x r =>
        brBind (listFromBytesAux dec n r) (fun xs r2 => .ok (x :: xs, r2)))

/-- Modelled from the spec: size-prefixed collection serialization — a
`u32` count then each element in order. -/
def listToBytes (enc : α → Bytes) (l : List α) : Bytes :=
  u32ToBytes l.length ++ (l.map enc).flatten

/-- Modelled from the spec: size-prefixed collection deserialization. -/
def listFromBytes (dec : Bytes → Except BrError (α × Bytes)) (b : Bytes) :
    Except BrError (List α × Bytes) :=
  brBind (u32FromBytes b) (fun n rest => listFromBytesAux dec n rest)

/-! ## AccessRights and Key (`common/src/key.rs`) -/

/-- `AccessRights` of `key.rs`: a `bitflags` wrapper over a `u8`, with
`READ = 0b001`, `WRITE = 0b010`, `ADD = 0b100` and their unions. -/
structure AccessRights where
  bits : Nat
deriving DecidableEq, Repr

def AccessRights.READ : AccessRights := ⟨1⟩
def AccessRights.WRITE : AccessRights := ⟨2⟩
def AccessRights.ADD : AccessRights := ⟨4⟩
def AccessRights.READ_ADD : AccessRights := ⟨5⟩
def AccessRights.READ_WRITE : AccessRights := ⟨3⟩
def AccessRights.ADD_WRITE : AccessRights := ⟨6⟩
def AccessRights.READ_ADD_WRITE : AccessRights := ⟨7⟩

/-- `AccessRights::is_readable`: `self & READ == READ`. -/
def AccessRights.is_readable (a : AccessRights) : Bool := a.bits &&& 1 == 1

/-- `AccessRights::is_writeable`: `self & WRITE == WRITE`. -/
def AccessRights.is_writeable (a : AccessRights) : Bool := a.bits &&& 2 == 2

/-- `AccessRights::is_addable`: `self & ADD == ADD`. -/
def AccessRights.is_addable (a : AccessRights) : Bool := a.bits &&& 4 == 4

/-- The flags are a valid `bitflags` value: only the three defined bits. -/
def AccessRights.wf (a : AccessRights) : Prop := a.bits < 8

instance (a : AccessRights) : Decidable a.wf := by unfold AccessRights.wf; infer_instance

/-- `ToBytes for AccessRights`: `self.bits.to_bytes()`. -/
def AccessRights.to_bytes (a : AccessRights) : Bytes := u8ToBytes a.bits

/-- `FromBytes for AccessRights`: one byte, `AccessRights::from_bits` —
which accepts exactly the bytes with no bit outside `0b111` — else
`FormattingError`. -/
def AccessRights.from_bytes (b : Bytes) : Except BrError (AccessRights × Bytes) :=
  brBind (u8FromBytes b) (fun id rest =>
    if id < 8 then .ok (⟨id⟩, rest) else .error .formattingError)

/-- Modelled from the spec: `Option<AccessRights>::to_bytes` — a 1-byte
tag (`OPTION_SIZE`), 0 for `None`, 1 followed by the payload for `Some`. -/
def optRightsToBytes : Option AccessRights → Bytes
  | none => [0]
  | some a => 1 :: a.to_bytes

/-- Modelled from the spec: `Option<AccessRights>::from_bytes`. -/
def optRightsFromBytes (b : Bytes) : Except BrError (Option AccessRights × Bytes) :=
  brBind (u8FromBytes b) (fun tag rest =>
    match tag with
    | 0 => .ok (none, rest)
    | 1 => brBind (AccessRights.from_bytes rest) (fun a rest2 => .ok (some a, rest2))
    | _ => .error .formattingError)

/-- `Key` of `key.rs`: tagged address of a state cell. -/
inductive Key where
  | Account (addr : Bytes)
  | Hash (addr : Bytes)
  | URef (addr : Bytes) (rights : Option AccessRights)
  | Local (seed : Bytes) (key_hash : Bytes)
deriving DecidableEq, Repr

/-- `Key::normalize`: drop the access rights of a `URef`, identity on the
other variants. -/
def Key.normalize : Key → Key
  | .URef id _ => .URef id none
  | other => other

/-- Well-formed key: 32-byte addresses of actual bytes, valid flag bits. -/
def Key.wf : Key → Prop
  | .Account a => a.length = 32 ∧ wfBytes a
  | .Hash a => a.length = 32 ∧ wfBytes a
  | .URef a r => a.length = 32 ∧ wfBytes a ∧ (∀ x ∈ r.toList, x.wf)
  | .Local s h => s.length = 32 ∧ wfBytes s ∧ h.length = 32 ∧ wfBytes h

instance (k : Key) : Decidable k.wf := by cases k <;> unfold Key.wf <;> infer_instance

/-- `ToBytes for Key`: tag byte (`ACCOUNT_ID = 0`, `HASH_ID = 1`,
`UREF_ID = 2`, `LOCAL_ID = 3`) followed by the fields. -/
def Key.to_bytes : Key → Bytes
  | .Account addr => 0 :: arr32ToBytes addr
  | .Hash hash => 1 :: arr32ToBytes hash
  | .URef rf maybeRights => 2 :: (arr32ToBytes rf ++ optRightsToBytes maybeRights)
  | .Local seed keyHash => 3 :: (arr32ToBytes seed ++ arr32ToBytes keyHash)

/-- `FromBytes for Key`: dispatch on the tag byte; an unknown tag is a
`FormattingError`. -/
def Key.from_bytes (b : Bytes) : Except BrError (Key × Bytes) :=
  brBind (u8FromBytes b) (fun id rest =>
    match id with
    | 0 => brBind (arr32FromBytes rest) (fun addr rem => .ok (.Account addr, rem))
    | 1 => brBind (arr32FromBytes rest) (fun hash rem => .ok (.Hash hash, rem))
    | 2 =>
        brBind (arr32FromBytes rest) (fun rf rem =>
          brBind (optRightsFromBytes rem) (fun maybeRights rem2 =>
            .ok (.URef rf maybeRights, rem2)))
    | 3 =>
        brBind (arr32FromBytes rest) (fun seed rest2 =>
          brBind (arr32FromBytes rest2) (fun keyHash rest3 =>
            .ok (.Local seed keyHash, rest3)))
    | _ => .error .formattingError)

/-! Derived `Ord` on `Key` (declaration order `Account < Hash < URef <
Local`, fields compared left to right, `Option`: `None < Some`,
`AccessRights` by bits, arrays lexicographically). -/

def listNatCmp : List Nat → List Nat → Ordering
  | [], [] => .eq
  | [], _ :: _ => .lt
  | _ :: _, [] => .gt
  | a :: as, b :: bs =>
      match compare a b with
      | .eq => listNatCmp as bs
      | o => o

def optRightsCmp : Option AccessRights → Option AccessRights → Ordering
  | none, none => .eq
  | none, some _ => .lt
  | some _, none => .gt
  | some a, some b => compare a.bits b.bits

/-- Index of a `Key` variant in declaration order. -/
def Key.tagIdx : Key → Nat
  | .Account _ => 0
  | .Hash _ => 1
  | .URef _ _ => 2
  | .Local _ _ => 3

/-- The derived `Ord for Key` of the source. -/
def keyCmp (k1 k2 : Key) : Ordering :=
  match k1, k2 with
  | .Account a, .Account b => listNatCmp a b
  | .Hash a, .Hash b => listNatCmp a b
  | .URef a r1, .URef b r2 =>
      match listNatCmp a b with
      | .eq => optRightsCmp r1 r2
      | o => o
  | .Local s1 h1, .Local s2 h2 =>
      match listNatCmp s1 s2 with
      | .eq => listNatCmp h1 h2
      | o => o
  | a, b => compare a.tagIdx b.tagIdx

/-! ## U512 serialization (`common/src/value/u512.rs`) -/

/-- The `w`-byte little-endian buffer that `to_little_endian` fills. -/
def leBytes : Nat → Nat → Bytes
  | 0, _ => []
  | w + 1, n => n % 256 :: leBytes w (n / 256)

/-- `U512::from_little_endian`. -/
def leToNat : Bytes → Nat
  | [] => 0
  | b :: bs => b + 256 * leToNat bs

/-- `ToBytes for U512`: the 64-byte little-endian buffer, reversed, with
the leading (high) zero bytes skipped, a trailing length byte appended,
and the whole reversed again — i.e. a length byte followed by the
minimal little-endian bytes. -/
def u512ToBytes (n : Nat) : Bytes :=
  let buf := leBytes 64 n
  let nonZeroBytes := buf.reverse.dropWhile (fun b => b == 0)
  let numBytes := nonZeroBytes.length
  (nonZeroBytes ++ [numBytes]).reverse

/-- `FromBytes for U512`: a length byte (rejected above 64), that many
bytes, read little-endian. -/
def u512FromBytes (b : Bytes) : Except BrError (Nat × Bytes) :=
  brBind (u8FromBytes b) (fun numBytes rem =>
    if 64 < numBytes then .error .formattingError
    else brBind (safeSplitAt numBytes rem) (fun value rem2 => .ok (leToNat value, rem2)))

/-! ## Account, Contract (spec-modelled) and Value (`common/src/value/mod.rs`) -/

/-- A URef as a standalone struct (`common/src/uref.rs`, used by genesis):
a 32-byte address and an access-rights capability. -/
structure URefV where
  addr : Bytes
  access_rights : AccessRights
deriving DecidableEq, Repr

/-- Modelled from the spec: `common/src/value/account.rs` is not among the
repository files; §3 lists `Account{ public_key, nonce, purse_id,
named_keys, associated_keys, action_thresholds }`. `associated_keys` maps
public keys to weights; `action_thresholds` holds the deployment and
key-management weights. -/
structure Account where
  public_key : Bytes
  nonce : Nat
  purse_id : URefV
  named_keys : List (RStr × Key)
  associated_keys : List (Bytes × Nat)
  action_thresholds : Nat × Nat
deriving DecidableEq, Repr

/-- `Account::urefs_lookup` (the name `engine.rs` and the genesis tests use
for the named-key map). -/
def Account.urefs_lookup (a : Account) : List (RStr × Key) := a.named_keys

/-- Modelled from the spec: `common/src/value/contract.rs` is not among the
repository files; §3 lists `Contract{ bytes, named_keys,
protocol_version }`. -/
structure Contract where
  bytes : Bytes
  named_keys : List (RStr × Key)
  protocol_version : Nat
deriving DecidableEq, Repr

/-- Modelled from the spec: serialization of a named-key map — a
size-prefixed collection of (string, key) pairs (§4.1). -/
def namedKeysToBytes (m : List (RStr × Key)) : Bytes :=
  listToBytes (fun p => strToBytes p.1 ++ Key.to_bytes p.2) m

def namedKeyFromBytes (b : Bytes) : Except BrError ((RStr × Key) × Bytes) :=
  brBind (strFromBytes b) (fun n rest =>
    brBind (Key.from_bytes rest) (fun k rest2 => .ok ((n, k), rest2)))

def namedKeysFromBytes (b : Bytes) : Except BrError (List (RStr × Key) × Bytes) :=
  listFromBytes namedKeyFromBytes b

/-- Modelled from the spec: serialization of a URef value — address then
rights byte. -/
def urefVToBytes (u : URefV) : Bytes := arr32ToBytes u.addr ++ u.access_rights.to_bytes

def urefVFromBytes (b : Bytes) : Except BrError (URefV × Bytes) :=
  brBind (arr32FromBytes b) (fun a rest =>
    brBind (AccessRights.from_bytes rest) (fun r rest2 => .ok (⟨a, r⟩, rest2)))

def assocKeyToBytes (p : Bytes × Nat) : Bytes := arr32ToBytes p.1 ++ u8ToBytes p.2

def assocKeyFromBytes (b : Bytes) : Except BrError ((Bytes × Nat) × Bytes) :=
  brBind (arr32FromBytes b) (fun pk rest =>
    brBind (u8FromBytes rest) (fun w rest2 => .ok ((pk, w), rest2)))

/-- Modelled from the spec: `Account::to_bytes` — the fields of §3 in
order, with the general layout rules of §4.1. -/
def Account.to_bytes (a : Account) : Bytes :=
  arr32ToBytes a.public_key ++ u64ToBytes a.nonce ++ urefVToBytes a.purse_id ++
    namedKeysToBytes a.named_keys ++ listToBytes assocKeyToBytes a.associated_keys ++
    u8ToBytes a.action_thresholds.1 ++ u8ToBytes a.action_thresholds.2

/-- Modelled from the spec: `Account::from_bytes`. -/
def Account.from_bytes (b : Bytes) : Except BrError (Account × Bytes) :=
  brBind (arr32FromBytes b) (fun pk r1 =>
    brBind (u64FromBytes r1) (fun nonce r2 =>
      brBind (urefVFromBytes r2) (fun purse r3 =>
        brBind (namedKeysFromBytes r3) (fun nk r4 =>
          brBind (listFromBytes assocKeyFromBytes r4) (fun ak r5 =>
            brBind (u8FromBytes r5) (fun t1 r6 =>
              brBind (u8FromBytes r6) (fun t2 r7 =>
                .ok (⟨pk, nonce, purse, nk, ak, (t1, t2)⟩, r7))))))))

/-- Modelled from the spec: `Contract::to_bytes` — code bytes, named keys,
protocol version. -/
def Contract.to_bytes (c : Contract) : Bytes :=
  vecU8ToBytes c.bytes ++ namedKeysToBytes c.named_keys ++ u64ToBytes c.protocol_version

/-- Modelled from the spec: `Contract::from_bytes`. -/
def Contract.from_bytes (b : Bytes) : Except BrError (Contract × Bytes) :=
  brBind (vecU8FromBytes b) (fun bs r1 =>
    brBind (namedKeysFromBytes r1) (fun nk r2 =>
      brBind (u64FromBytes r2) (fun pv r3 => .ok (⟨bs, nk, pv⟩, r3))))

/-- The `Value` sum type of `common/src/value/mod.rs`. -/
inductive Value where
  | Int32 (i : Int)
  | ByteArray (arr : Bytes)
  | ListInt32 (arr : List Int)
  | String (s : RStr)
  | ListString (arr : List RStr)
  | NamedKey (n : RStr) (k : Key)
  | Account (a : Account)
  | Contract (c : Contract)
deriving DecidableEq, Repr

/-- The serialization tag of each variant (`INT32_ID = 0` … `LISTSTRING_ID
= 7` in the source). -/
def valueTag : Value → Nat
  | .Int32 _ => 0
  | .ByteArray _ => 1
  | .ListInt32 _ => 2
  | .String _ => 3
  | .Account _ => 4
  | .Contract _ => 5
  | .NamedKey _ _ => 6
  | .ListString _ => 7

/-- `ToBytes for Value`: the variant's tag byte then its payload. -/
def Value.to_bytes : Value → Bytes
  | .Int32 i => 0 :: i32ToBytes i
  | .ByteArray arr => 1 :: vecU8ToBytes arr
  | .ListInt32 arr => 2 :: listToBytes i32ToBytes arr
  | .String s => 3 :: strToBytes s
  | .Account a => 4 :: a.to_bytes
  | .Contract c => 5 :: c.to_bytes
  | .NamedKey n k => 6 :: (strToBytes n ++ Key.to_bytes k)
  | .ListString arr => 7 :: listToBytes strToBytes arr

/-- `FromBytes for Value`: dispatch on the tag byte; an unknown tag is a
`FormattingError`. -/
def Value.from_bytes (b : Bytes) : Except BrError (Value × Bytes) :=
  brBind (u8FromBytes b) (fun id rest =>
    match id with
    | 0 => brBind (i32FromBytes rest) (fun i rem => .ok (.Int32 i, rem))
    | 1 => brBind (vecU8FromBytes rest) (fun arr rem => .ok (.ByteArray arr, rem))
    | 2 => brBind (listFromBytes i32FromBytes rest) (fun arr rem => .ok (.ListInt32 arr, rem))
    | 3 => brBind (strFromBytes rest) (fun s rem => .ok (.String s, rem))
    | 4 => brBind (Account.from_bytes rest) (fun a rem => .ok (.Account a, rem))
    | 5 => brBind (Contract.from_bytes rest) (fun c rem => .ok (.Contract c, rem))
    | 6 =>
        brBind (strFromBytes rest) (fun name rem1 =>
          brBind (Key.from_bytes rem1) (fun key rem2 => .ok (.NamedKey name key, rem2)))
    | 7 => brBind (listFromBytes strFromBytes rest) (fun arr rem => .ok (.ListString arr, rem))
    | _ => .error .formattingError)

/-- `Value::type_string`. -/
def Value.type_string : Value → LStr
  | .Int32 _ => "Int32"
  | .ListInt32 _ => "List[Int32]"
  | .String _ => "String"
  | .ByteArray _ => "ByteArray"
  | .Account _ => "Account"
  | .Contract _ => "Contract"
  | .NamedKey _ _ => "NamedKey"
  | .ListString _ => "List[String]"

/-- Well-formed URef struct. -/
def URefV.wf (u : URefV) : Prop := u.addr.length = 32 ∧ wfBytes u.addr ∧ u.access_rights.wf

instance (u : URefV) : Decidable u.wf := by unfold URefV.wf; infer_instance

/-- The `u32` cap of every size-prefixed collection. -/
def wfLen (n : Nat) : Prop := n < 4294967296

instance (n : Nat) : Decidable (wfLen n) := by unfold wfLen; infer_instance

/-- Well-formed string: actual bytes, length below `2^32`. -/
def wfStr (s : RStr) : Prop := wfBytes s ∧ wfLen s.length

instance (s : RStr) : Decidable (wfStr s) := by unfold wfStr; infer_instance

/-- An `i32` value's range. -/
def wfI32 (i : Int) : Prop := -2147483648 ≤ i ∧ i < 2147483648

instance (i : Int) : Decidable (wfI32 i) := by unfold wfI32; infer_instance

def wfNamedKeys (m : List (RStr × Key)) : Prop :=
  wfLen m.length ∧ ∀ p ∈ m, wfStr p.1 ∧ p.2.wf

instance (m : List (RStr × Key)) : Decidable (wfNamedKeys m) := by
  unfold wfNamedKeys; infer_instance

/-- Well-formed account: the Rust-side type invariants of every field. -/
def Account.wf (a : Account) : Prop :=
  a.public_key.length = 32 ∧ wfBytes a.public_key ∧ a.nonce < 18446744073709551616 ∧
    a.purse_id.wf ∧ wfNamedKeys a.named_keys ∧
    (wfLen a.associated_keys.length ∧
      ∀ p ∈ a.associated_keys, p.1.length = 32 ∧ wfBytes p.1 ∧ p.2 < 256) ∧
    a.action_thresholds.1 < 256 ∧ a.action_thresholds.2 < 256

instance (a : Account) : Decidable a.wf := by unfold Account.wf; infer_instance

/-- Well-formed contract. -/
def Contract.wf (c : Contract) : Prop :=
  wfBytes c.bytes ∧ wfLen c.bytes.length ∧ wfNamedKeys c.named_keys ∧
    c.protocol_version < 18446744073709551616

instance (c : Contract) : Decidable c.wf := by unfold Contract.wf; infer_instance

/-- Well-formed value: the Rust-side type invariants of each variant. -/
def Value.wf : Value → Prop
  | .Int32 i => wfI32 i
  | .ByteArray arr => wfBytes arr ∧ wfLen arr.length
  | .ListInt32 arr => wfLen arr.length ∧ ∀ i ∈ arr, wfI32 i
  | .String s => wfStr s
  | .ListString arr => wfLen arr.length ∧ ∀ s ∈ arr, wfStr s
  | .NamedKey n k => wfStr n ∧ k.wf
  | .Account a => a.wf
  | .Contract c => c.wf

instance (v : Value) : Decidable v.wf := by cases v <;> unfold Value.wf <;> infer_instance

/-! ## Association lists: the shallow embedding of `HashMap`/`BTreeMap`.

The entry order of the list stands for the map's iteration order. -/

def assocLookup [DecidableEq κ] : List (κ × ν) → κ → Option ν
  | [], _ => none
  | p :: rest, k => if p.1 = k then some p.2 else assocLookup rest k

def assocInsert [DecidableEq κ] : List (κ × ν) → κ → ν → List (κ × ν)
  | [], k, v => [(k, v)]
  | p :: rest, k, v => if p.1 = k then (k, v) :: rest else p :: assocInsert rest k v

def assocRemove [DecidableEq κ] (l : List (κ × ν)) (k : κ) : List (κ × ν) :=
  l.filter (fun p => !(decide (p.1 = k)))

def assocInsertAll [DecidableEq κ] (l : List (κ × ν)) (m : List (κ × ν)) : List (κ × ν) :=
  m.foldl (fun acc p => assocInsert acc p.1 p.2) l

/-! ## Transform algebra.

Modelled from the spec: `storage/src/transform.rs` (and the later
`shared/src/transform.rs`) are not among the repository files; §3 lists
the variants and §4.1 fixes `apply` — numeric adds saturate at type max,
`AddKeys` merges into an Account's or Contract's named-key map, anything
else is a `TypeMismatch`. -/

structure TypeMismatch where
  expected : LStr
  found : LStr
deriving DecidableEq, Repr

inductive Transform where
  | Identity
  | Write (v : Value)
  | AddInt32 (i : Int)
  | AddUInt512 (u : Nat)
  | AddKeys (m : List (RStr × Key))
  | Failure (t : TypeMismatch)
deriving DecidableEq, Repr

def i32_saturating_add (a b : Int) : Int :=
  max (-2147483648) (min (a + b) 2147483647)

def u64_saturating_add (a b : Nat) : Nat :=
  min (a + b) 18446744073709551615

/-- Modelled from the spec: `Transform::apply` (§4.1 "Transform
application"; the `AddUInt512`-on-`Account` case adds to the nonce). -/
def Transform.apply : Transform → Value → Except TypeMismatch Value
  | .Identity, v => .ok v
  | .Write w, _ => .ok w
  | .AddInt32 i, v =>
      match v with
      | .Int32 j => .ok (.Int32 (i32_saturating_add j i))
      | other => .error ⟨"Int32", other.type_string⟩
  | .AddUInt512 u, v =>
      match v with
      | .Account a => .ok (.Account { a with nonce := u64_saturating_add a.nonce u })
      | other => .error ⟨"UInt512", other.type_string⟩
  | .AddKeys m, v =>
      match v with
      | .Account a => .ok (.Account { a with named_keys := assocInsertAll a.named_keys m })
      | .Contract c => .ok (.Contract { c with named_keys := assocInsertAll c.named_keys m })
      | other => .error ⟨"Contract or Account", other.type_string⟩
  | .Failure t, _ => .error t

/-! ## In-memory global state (`storage/src/gs/inmem.rs`).

`blake2b` comes from an external crate, so every function that hashes
takes the 32-byte hash function as an explicit parameter. -/

/-- `storage::error::Error`, modelled from the spec's `CommitResult`
variants (`error.rs` is not among the repository files; `inmem.rs`
constructs exactly these). -/
inductive Error where
  | KeyNotFound (key : Key)
  | RootNotFound (hash : Bytes)
  | TypeMismatchErr (t : TypeMismatch)
deriving DecidableEq, Repr

/-- `InMemGS`: the active snapshot and the history of all snapshots. -/
structure InMemGS where
  active_state : List (Key × Value)
  history : List (Bytes × List (Key × Value))
deriving DecidableEq, Repr

/-- `DbReader::get for InMemGS`. -/
def InMemGS.get (gs : InMemGS) (k : Key) : Except Error Value :=
  match assocLookup gs.active_state k with
  | none => .error (.KeyNotFound k)
  | some v => .ok v

/-- `InMemGS::checkout`: unknown root is `RootNotFound`; otherwise the
active state is replaced wholesale by the stored snapshot. -/
def InMemGS.checkout (gs : InMemGS) (prestate_hash : Bytes) : InMemGS × Except Error Unit :=
  match assocLookup gs.history prestate_hash with
  | none => (gs, .error (.RootNotFound prestate_hash))
  | some snapshot => ({ gs with active_state := snapshot }, .ok ())

/-- The byte string `InMemGS::get_root_hash` feeds the hasher: the
serialized entries in the active state's iteration order. -/
def rootHashData (entries : List (Key × Value)) : Bytes :=
  (entries.map (fun p => Key.to_bytes p.1 ++ Value.to_bytes p.2)).flatten

/-- `InMemGS::get_root_hash`. -/
def InMemGS.get_root_hash (hash : Bytes → Bytes) (gs : InMemGS) : Bytes :=
  hash (rootHashData gs.active_state)

/-- One iteration of the `try_fold` in `InMemGS::commit`: the current
value is removed; if absent, only a `Write` may insert, anything else is
`KeyNotFound`; if present, the transform is applied and the result put
back (on an apply error the entry stays removed). -/
def commitStep (active : List (Key × Value)) (k : Key) (t : Transform) :
    List (Key × Value) × Option Error :=
  match assocLookup active k with
  | none =>
      match t with
      | .Write v => (assocInsert active k v, none)
      | .Identity => (active, some (.KeyNotFound k))
      | .AddInt32 _ => (active, some (.KeyNotFound k))
      | .AddUInt512 _ => (active, some (.KeyNotFound k))
      | .AddKeys _ => (active, some (.KeyNotFound k))
      | .Failure _ => (active, some (.KeyNotFound k))
  | some curr =>
      match t.apply curr with
      | .ok newValue => (assocInsert (assocRemove active k) k newValue, none)
      | .error tm => (assocRemove active k, some (.TypeMismatchErr tm))

/-- The `try_fold` over the effect set, in iteration order. -/
def commitFold : List (Key × Value) → List (Key × Transform) → List (Key × Value) × Option Error
  | active, [] => (active, none)
  | active, (k, t) :: rest =>
      match commitStep active k t with
      | (active2, some e) => (active2, some e)
      | (active2, none) => commitFold active2 rest

/-- `InMemGS::commit`: fold the effects over the active state; on success
hash the result and record the snapshot in history under that hash. -/
def InMemGS.commit (hash : Bytes → Bytes) (gs : InMemGS) (effects : List (Key × Transform)) :
    InMemGS × Except Error Bytes :=
  match commitFold gs.active_state effects with
  | (active2, some e) => ({ gs with active_state := active2 }, .error e)
  | (active2, none) =>
      let h := hash (rootHashData active2)
      ({ active_state := active2, history := assocInsert gs.history h active2 }, .ok h)

/-! ## Engine facade (`engine/src/engine.rs`) -/

/-- `engine::Error`. -/
inductive EngineError where
  | PreprocessingError (msg : LStr)
  | ExecError
  | StorageError (e : Error)
  | ValueNotFound (path : RStr)
deriving DecidableEq, Repr

/-- Modelled from the spec: `TrackingCopy::read` (`storage/src/gs/mod.rs`
is not among the repository files; §4.2 — fetch via the reader, the cache
only memoizes). For a read-only query it is the reader's `get`. -/
def tcRead (gs : InMemGS) (k : Key) : Except Error Value := gs.get k

/-- The `try_fold` inside `query_state`: follow each path segment through
the named-key map of an Account or Contract and read the key found. -/
def queryFold (gs : InMemGS) : Value → List RStr → Except EngineError Value
  | v, [] => .ok v
  | curr, name :: rest =>
      match curr with
      | .Account a =>
          match assocLookup a.urefs_lookup name with
          | none => .error (.ValueNotFound [])
          | some key =>
              match tcRead gs key with
              | .error e => .error (.StorageError e)
              | .ok v => queryFold gs v rest
      | .Contract c =>
          match assocLookup c.named_keys name with
          | none => .error (.ValueNotFound [])
          | some key =>
              match tcRead gs key with
              | .error e => .error (.StorageError e)
              | .ok v => queryFold gs v rest
      | _ => .error (.ValueNotFound [])

/-- The part of `query_state` after the checkout: read the base key, fold
over the path; any error inside the fold is replaced by
`ValueNotFound(full_path)` where `full_path` is the concatenation of ALL
path segments. -/
def queryBody (gs2 : InMemGS) (base_key : Key) (path : List RStr) :
    Except EngineError Value :=
  match tcRead gs2 base_key with
  | .error e => .error (.StorageError e)
  | .ok base_value =>
      match queryFold gs2 base_value path with
      | .error _ => .error (.ValueNotFound path.flatten)
      | .ok v => .ok v

/-- `EngineState::query_state`: checkout, then `queryBody`. -/
def query_state (gs : InMemGS) (state_hash : Bytes) (base_key : Key) (path : List RStr) :
    Except EngineError Value :=
  match gs.checkout state_hash with
  | (_, .error e) => .error (.StorageError e)
  | (gs2, .ok _) => queryBody gs2 base_key path

/-! ## run_deploy / run_deploys (`engine.rs`, `comm/src/engine_server/mod.rs`).

The Wasm preprocessor and interpreter are external collaborators (§1:
"treated as a pure function" / "an opaque executor"), passed in as
function parameters over abstract types `M` (module) and `EE` (execution
effect). -/

structure Deploy where
  module_bytes : Bytes
  address : Bytes
  timestamp : Nat
  nonce : Nat
  gas_limit : Nat
deriving DecidableEq, Repr

inductive ExecutionResult (EE : Type) where
  | Success (effect : EE)
  | Failure (error : EngineError)
deriving DecidableEq, Repr

/-- `EngineState::run_deploy`: preprocess first — a preprocessing error is
an `Ok(Failure(..))` result — then checkout the prestate (`Err` on an
unknown root), then execute. -/
def run_deploy (process : Bytes → Except LStr M) (execFn : M → Deploy → InMemGS → Except Unit EE)
    (gs : InMemGS) (prestate_hash : Bytes) (d : Deploy) :
    InMemGS × Except Error (ExecutionResult EE) :=
  match process d.module_bytes with
  | .error e => (gs, .ok (.Failure (.PreprocessingError e)))
  | .ok m =>
      match gs.checkout prestate_hash with
      | (gs2, .error e) => (gs2, .error e)
      | (gs2, .ok _) =>
          match execFn m d gs2 with
          | .ok ee => (gs2, .ok (.Success ee))
          | .error _ => (gs2, .ok (.Failure .ExecError))

/-- `run_deploys`: map `run_deploy` over the deploys and collect,
short-circuiting on the first `Err` (the `RootNotFound` case). -/
def run_deploys (process : Bytes → Except LStr M) (execFn : M → Deploy → InMemGS → Except Unit EE)
    (gs : InMemGS) (prestate_hash : Bytes) :
    List Deploy → InMemGS × Except Error (List (ExecutionResult EE))
  | [] => (gs, .ok [])
  | d :: ds =>
      match run_deploy process execFn gs prestate_hash d with
      | (gs2, .error e) => (gs2, .error e)
      | (gs2, .ok r) =>
          match run_deploys process execFn gs2 prestate_hash ds with
          | (gs3, .error e) => (gs3, .error e)
          | (gs3, .ok rs) => (gs3, .ok (r :: rs))

/-! ## Genesis (`engine/src/engine_state/genesis.rs`).

`genesis.rs` is written against a later `common` crate whose `Value`
carries `UInt512` and `Key` indirection variants (that crate version is
not among the repository files); those two extra variants are modelled
from the spec's §3 Value list as `GValue`, and the transform type it
records (`shared::transform::Transform`) as `GTransform`. The ChaCha PRNG
(`execution::create_rng`, seeded by `(genesis_account_addr, 0)`) is an
external generator, modelled as a stream of 32-byte blocks. -/

/-- The later-era `Value` as genesis uses it. Modelled from the spec: §3
adds `UInt512` and `Key(Key)` to the variants of `value/mod.rs`. -/
inductive GValue where
  | Key (k : Key)
  | UInt512 (u : Nat)
  | Account (a : Account)
  | Contract (c : Contract)
deriving DecidableEq, Repr

/-- Modelled from the spec: the transform variants recorded by genesis
(`shared/src/transform.rs` is not among the repository files). -/
inductive GTransform where
  | Identity
  | Write (v : GValue)
  | AddInt32 (i : Int)
  | AddUInt512 (u : Nat)
  | AddKeys (m : List (RStr × Key))
  | Failure (t : TypeMismatch)
deriving DecidableEq, Repr

/-- `Op` — the observable operation class. Modelled from the spec (§3
`Op ∈ {Read, Write, Add, NoOp}`; `engine_state/op.rs` is not among the
repository files). -/
inductive Op where
  | Read
  | Write
  | Add
  | NoOp
deriving DecidableEq, Repr

/-- `ExecutionEffect`: the `(ops, transforms)` pair. -/
structure ExecutionEffect where
  ops : List (Key × Op)
  transforms : List (Key × GTransform)
deriving DecidableEq, Repr

/-- The per-genesis ChaCha PRNG, as the stream of the successive 32-byte
blocks `fill_bytes` returns. -/
structure ChaChaRng where
  stream : Nat → Bytes
  pos : Nat

/-- `rng.fill_bytes(&mut buff)` for a 32-byte buffer. -/
def ChaChaRng.fill_bytes (rng : ChaChaRng) : Bytes × ChaChaRng :=
  (rng.stream rng.pos, { rng with pos := rng.pos + 1 })

/-- `genesis::create_uref`: draw 32 bytes and endow `READ_ADD_WRITE`. -/
def create_uref (rng : ChaChaRng) : URefV × ChaChaRng :=
  let (buff, rng2) := rng.fill_bytes
  (⟨buff, AccessRights.READ_ADD_WRITE⟩, rng2)

/-- The later-era `Key::URef(uref)` in terms of the `key.rs` `Key`. -/
def keyURef (u : URefV) : Key := Key.URef u.addr (some u.access_rights)

/-- Modelled from the spec: `Key::local(seed, bytes)` derives
`key_hash = blake2b(seed ‖ user_bytes)` (§3). -/
def keyLocal (hash : Bytes → Bytes) (seed : Bytes) (user_bytes : Bytes) : Key :=
  Key.Local seed (hash (seed ++ user_bytes))

/-- `key.rs addr_to_hex`: two lowercase hex digits per byte. -/
def hexDigit (n : Nat) : Nat := if n < 10 then 48 + n else 97 + (n - 10)

def addr_to_hex (a : Bytes) : RStr :=
  (a.map (fun b => [hexDigit (b / 16 % 16), hexDigit (b % 16)])).flatten

/-- `URef::as_string` — the hex rendering of the address. -/
def URefV.as_string (u : URefV) : RStr := addr_to_hex u.addr

/-- Decimal rendering of a balance (the `{}` display of a `U512`). -/
def natToDecimal (n : Nat) : RStr := (Nat.toDigits 10 n).map Char.toNat

/-- The string "mint" as UTF-8 bytes. -/
def mintName : RStr := [109, 105, 110, 116]

/-- The string "pos_purse" (`POS_PURSE`) as UTF-8 bytes. -/
def posPurseName : RStr := [112, 111, 115, 95, 112, 117, 114, 115, 101]

/-- Modelled from the spec: `init::create_genesis_account`
(`shared/src/init.rs` is not among the repository files) — a fresh
account at the genesis address with nonce 0, the given purse and known
urefs. -/
def create_genesis_account (genesis_account_addr : Bytes) (purse_id : URefV)
    (known_urefs : List (RStr × Key)) : Account :=
  ⟨genesis_account_addr, 0, purse_id, known_urefs, [(genesis_account_addr, 1)], (1, 1)⟩

/-- `genesis::create_mint_effects`, with the hash function and the PRNG
stream as parameters. -/
def create_mint_effects (hash : Bytes → Bytes) (rng : ChaChaRng)
    (genesis_account_addr : Bytes) (initial_tokens : Nat) (mint_code_bytes : Bytes)
    (protocol_version : Nat) : List (Key × GValue) × ChaChaRng :=
  let (public_uref, rng1) := create_uref rng
  let (mint_contract_uref, rng2) := create_uref rng1
  let tmp0 := assocInsert ([] : List (Key × GValue)) (keyURef public_uref)
    (GValue.Key (keyURef mint_contract_uref))
  let (purse_id_uref, rng3) := create_uref rng2
  let known_urefs := [(mintName, keyURef public_uref),
    (mint_contract_uref.as_string, keyURef mint_contract_uref)]
  let genesis_account := create_genesis_account genesis_account_addr purse_id_uref known_urefs
  let tmp1 := assocInsert tmp0 (Key.Account genesis_account_addr) (GValue.Account genesis_account)
  let purse_id_local_key := keyLocal hash mint_contract_uref.addr (arr32ToBytes purse_id_uref.addr)
  let (balance_uref, rng4) := create_uref rng3
  let balance_uref_key := keyURef balance_uref
  let tmp2 := assocInsert tmp1 purse_id_local_key (GValue.Key balance_uref_key)
  let tmp3 := assocInsert tmp2 balance_uref_key (GValue.UInt512 initial_tokens)
  let mint_known_urefs := assocInsert (assocInsert ([] : List (RStr × Key))
    balance_uref.as_string balance_uref_key)
    mint_contract_uref.as_string (keyURef mint_contract_uref)
  let mint_contract : Contract := ⟨mint_code_bytes, mint_known_urefs, protocol_version⟩
  let tmp4 := assocInsert tmp3 (keyURef mint_contract_uref) (GValue.Contract mint_contract)
  (tmp4, rng4)

/-- The `"v_{validator_pk}_{validator_stake}"` name of a bonded validator
in the PoS contract's known urefs. -/
def validatorName (pk : Bytes) (stake : Nat) : RStr :=
  [118, 95] ++ addr_to_hex (pk.take 32) ++ [95] ++ natToDecimal stake

/-- `genesis::create_pos_effects`. -/
def create_pos_effects (rng : ChaChaRng) (pos_code : Bytes)
    (genesis_validators : List (Bytes × Nat)) (protocol_version : Nat) :
    List (Key × GValue) × ChaChaRng :=
  let (public_pos_address, rng1) := create_uref rng
  let (pos_uref, rng2) := create_uref rng1
  let (pos_purse, rng3) := create_uref rng2
  let tmp0 := assocInsert ([] : List (Key × GValue)) (keyURef public_pos_address)
    (GValue.Key (keyURef pos_uref))
  let known_urefs0 := genesis_validators.map
    (fun p => (validatorName p.1 p.2, Key.Hash (List.replicate 32 0)))
  let known_urefs := assocInsert known_urefs0 posPurseName (keyURef pos_purse)
  let contract : Contract := ⟨pos_code, known_urefs, protocol_version⟩
  let tmp1 := assocInsert tmp0 (keyURef pos_uref) (GValue.Contract contract)
  (tmp1, rng3)

/-- The key-normalization step at the bottom of `create_genesis_effects`:
`if let Key::URef(_) = k { k.normalize() } else { k }`. -/
def genesisKeyStep : Key → Key
  | .URef a r => Key.normalize (.URef a r)
  | other => other

/-- The body of the `for (k, v)` loop at the bottom of
`create_genesis_effects`: normalize the key, record `Op::Write` and
`Transform::Write(v)` under it. -/
def genesisEffectStep (ee : ExecutionEffect) (p : Key × GValue) : ExecutionEffect :=
  { ops := assocInsert ee.ops (genesisKeyStep p.1) Op.Write,
    transforms := assocInsert ee.transforms (genesisKeyStep p.1) (GTransform.Write p.2) }

/-- `genesis::create_genesis_effects`: mint effects, then PoS effects
(continuing the same PRNG), folded into an `ExecutionEffect` of
`Op::Write` / `Transform::Write` entries under normalized keys. -/
def create_genesis_effects (hash : Bytes → Bytes) (rngStream : Nat → Bytes)
    (genesis_account_addr : Bytes) (initial_tokens : Nat) (mint_code_bytes : Bytes)
    (pos_code_bytes : Bytes) (genesis_validators : List (Bytes × Nat))
    (protocol_version : Nat) : ExecutionEffect :=
  let rng : ChaChaRng := ⟨rngStream, 0⟩
  let mint := create_mint_effects hash rng genesis_account_addr
    initial_tokens mint_code_bytes protocol_version
  let pos := create_pos_effects mint.2 pos_code_bytes genesis_validators
    protocol_version
  (mint.1 ++ pos.1).foldl genesisEffectStep ⟨[], []⟩

/-! ## Round-trip lemmas, one per serializer, in the form
`from_bytes (to_bytes x ++ rest) = ok (x, rest)`. -/

theorem u8_rt (n : Nat) (rest : Bytes) :
    u8FromBytes (u8ToBytes n ++ rest) = .ok (n, rest) := rfl

theorem u32_rt (n : Nat) (h : n < 4294967296) (rest : Bytes) :
    u32FromBytes (u32ToBytes n ++ rest) = .ok (n, rest) := by
  simp only [u32ToBytes, u32FromBytes, List.cons_append, List.nil_append,
    Except.ok.injEq, Prod.mk.injEq, and_true]
  omega

theorem u64_rt (n : Nat) (h : n < 18446744073709551616) (rest : Bytes) :
    u64FromBytes (u64ToBytes n ++ rest) = .ok (n, rest) := by
  simp only [u64ToBytes, u64FromBytes, List.cons_append, List.nil_append,
    Except.ok.injEq, Prod.mk.injEq, and_true]
  omega

theorem i32_rt (i : Int) (h : wfI32 i) (rest : Bytes) :
    i32FromBytes (i32ToBytes i ++ rest) = .ok (i, rest) := by
  obtain ⟨h1, h2⟩ := h
  have hm : (i % 4294967296).toNat < 4294967296 := by omega
  rw [i32ToBytes, i32FromBytes, u32_rt _ hm, brBind_ok]
  simp only [Except.ok.injEq, Prod.mk.injEq, and_true]
  split <;> omega

theorem safeSplitAt_rt (v rest : Bytes) :
    safeSplitAt v.length (v ++ rest) = .ok (v, rest) := by
  rw [safeSplitAt, if_pos (by simp), List.take_left, List.drop_left]

theorem vecU8_rt (v : Bytes) (h : wfLen v.length) (rest : Bytes) :
    vecU8FromBytes (vecU8ToBytes v ++ rest) = .ok (v, rest) := by
  rw [vecU8ToBytes, vecU8FromBytes, List.append_assoc, u32_rt _ h, brBind_ok, safeSplitAt_rt]

theorem arr32_rt (a : Bytes) (h : a.length = 32) (rest : Bytes) :
    arr32FromBytes (arr32ToBytes a ++ rest) = .ok (a, rest) := by
  rw [arr32ToBytes, arr32FromBytes, vecU8_rt a (by rw [h]; decide), brBind_ok, if_pos h]

theorem str_rt (s : RStr) (h : wfStr s) (rest : Bytes) :
    strFromBytes (strToBytes s ++ rest) = .ok (s, rest) :=
  vecU8_rt s h.2 rest

theorem listFromBytesAux_rt (dec : Bytes → Except BrError (α × Bytes)) (enc : α → Bytes)
    (l : List α) (rest : Bytes) (h : ∀ x ∈ l, ∀ r, dec (enc x ++ r) = .ok (x, r)) :
    listFromBytesAux dec l.length ((l.map enc).flatten ++ rest) = .ok (l, rest) := by
  induction l with
  | nil => rfl
  | cons x xs ih =>
      rw [List.map_cons, List.flatten_cons, List.length_cons, listFromBytesAux,
        List.append_assoc, h x (by simp), brBind_ok,
        ih (fun y hy => h y (by simp [hy])), brBind_ok]

theorem list_rt (dec : Bytes → Except BrError (α × Bytes)) (enc : α → Bytes)
    (l : List α) (hl : wfLen l.length) (rest : Bytes)
    (h : ∀ x ∈ l, ∀ r, dec (enc x ++ r) = .ok (x, r)) :
    listFromBytes dec (listToBytes enc l ++ rest) = .ok (l, rest) := by
  rw [listToBytes, listFromBytes, List.append_assoc, u32_rt _ hl, brBind_ok,
    listFromBytesAux_rt dec enc l rest h]

theorem accessRights_rt (a : AccessRights) (h : a.wf) (rest : Bytes) :
    AccessRights.from_bytes (a.to_bytes ++ rest) = .ok (a, rest) := by
  rw [AccessRights.to_bytes, AccessRights.from_bytes, u8_rt, brBind_ok,
    if_pos (show a.bits < 8 from h)]

theorem optRights_rt (r : Option AccessRights) (h : ∀ x ∈ r.toList, x.wf) (rest : Bytes) :
    optRightsFromBytes (optRightsToBytes r ++ rest) = .ok (r, rest) := by
  cases r with
  | none => rfl
  | some a =>
      have ha : a.wf := h a (by simp)
      show optRightsFromBytes (1 :: (a.to_bytes ++ rest)) = .ok (some a, rest)
      rw [optRightsFromBytes, show u8FromBytes (1 :: (a.to_bytes ++ rest)) =
        .ok (1, a.to_bytes ++ rest) from rfl, brBind_ok]
      show brBind (AccessRights.from_bytes (a.to_bytes ++ rest)) _ = _
      rw [accessRights_rt a ha, brBind_ok]

theorem key_rt (k : Key) (h : k.wf) (rest : Bytes) :
    Key.from_bytes (Key.to_bytes k ++ rest) = .ok (k, rest) := by
  cases k with
  | Account a =>
      show Key.from_bytes (0 :: (arr32ToBytes a ++ rest)) = _
      rw [Key.from_bytes, show u8FromBytes (0 :: (arr32ToBytes a ++ rest)) =
        .ok (0, arr32ToBytes a ++ rest) from rfl, brBind_ok]
      show brBind (arr32FromBytes (arr32ToBytes a ++ rest)) _ = _
      rw [arr32_rt a h.1, brBind_ok]
  | Hash a =>
      show Key.from_bytes (1 :: (arr32ToBytes a ++ rest)) = _
      rw [Key.from_bytes, show u8FromBytes (1 :: (arr32ToBytes a ++ rest)) =
        .ok (1, arr32ToBytes a ++ rest) from rfl, brBind_ok]
      show brBind (arr32FromBytes (arr32ToBytes a ++ rest)) _ = _
      rw [arr32_rt a h.1, brBind_ok]
  | URef a r =>
      show Key.from_bytes (2 :: ((arr32ToBytes a ++ optRightsToBytes r) ++ rest)) = _
      rw [Key.from_bytes, List.append_assoc, show
        u8FromBytes (2 :: (arr32ToBytes a ++ (optRightsToBytes r ++ rest))) =
        .ok (2, arr32ToBytes a ++ (optRightsToBytes r ++ rest)) from rfl, brBind_ok]
      show brBind (arr32FromBytes (arr32ToBytes a ++ (optRightsToBytes r ++ rest))) _ = _
      rw [arr32_rt a h.1, brBind_ok, optRights_rt r h.2.2, brBind_ok]
  | Local s kh =>
      show Key.from_bytes (3 :: ((arr32ToBytes s ++ arr32ToBytes kh) ++ rest)) = _
      rw [Key.from_bytes, List.append_assoc, show
        u8FromBytes (3 :: (arr32ToBytes s ++ (arr32ToBytes kh ++ rest))) =
        .ok (3, arr32ToBytes s ++ (arr32ToBytes kh ++ rest)) from rfl, brBind_ok]
      show brBind (arr32FromBytes (arr32ToBytes s ++ (arr32ToBytes kh ++ rest))) _ = _
      rw [arr32_rt s h.1, brBind_ok, arr32_rt kh h.2.2.1, brBind_ok]

theorem urefV_rt (u : URefV) (h : u.wf) (rest : Bytes) :
    urefVFromBytes (urefVToBytes u ++ rest) = .ok (u, rest) := by
  rw [urefVToBytes, urefVFromBytes, List.append_assoc, arr32_rt u.addr h.1, brBind_ok,
    accessRights_rt u.access_rights h.2.2, brBind_ok]

theorem namedKey_rt (p : RStr × Key) (h : wfStr p.1 ∧ p.2.wf) (rest : Bytes) :
    namedKeyFromBytes ((strToBytes p.1 ++ Key.to_bytes p.2) ++ rest) = .ok (p, rest) := by
  rw [namedKeyFromBytes, List.append_assoc, str_rt p.1 h.1, brBind_ok, key_rt p.2 h.2, brBind_ok]

theorem namedKeys_rt (m : List (RStr × Key)) (h : wfNamedKeys m) (rest : Bytes) :
    namedKeysFromBytes (namedKeysToBytes m ++ rest) = .ok (m, rest) := by
  rw [namedKeysToBytes, namedKeysFromBytes]
  exact list_rt _ _ m h.1 rest (fun p hp r => namedKey_rt p (h.2 p hp) r)

theorem assocKey_rt (p : Bytes × Nat) (h : p.1.length = 32) (rest : Bytes) :
    assocKeyFromBytes (assocKeyToBytes p ++ rest) = .ok (p, rest) := by
  rw [assocKeyToBytes, assocKeyFromBytes, List.append_assoc, arr32_rt p.1 h, brBind_ok,
    u8_rt, brBind_ok]

theorem account_rt (a : Account) (h : a.wf) (rest : Bytes) :
    Account.from_bytes (Account.to_bytes a ++ rest) = .ok (a, rest) := by
  obtain ⟨h1, h2, h3, h4, h5, ⟨h6, h7⟩, h8, h9⟩ := h
  rw [Account.to_bytes, Account.from_bytes]
  simp only [List.append_assoc]
  rw [arr32_rt a.public_key h1, brBind_ok, u64_rt a.nonce h3, brBind_ok,
    urefV_rt a.purse_id h4, brBind_ok, namedKeys_rt a.named_keys h5, brBind_ok,
    list_rt _ _ a.associated_keys h6 _ (fun p hp r => assocKey_rt p (h7 p hp).1 r), brBind_ok,
    u8_rt, brBind_ok, u8_rt, brBind_ok]

theorem contract_rt (c : Contract) (h : c.wf) (rest : Bytes) :
    Contract.from_bytes (Contract.to_bytes c ++ rest) = .ok (c, rest) := by
  obtain ⟨h1, h2, h3, h4⟩ := h
  rw [Contract.to_bytes, Contract.from_bytes]
  simp only [List.append_assoc]
  rw [vecU8_rt c.bytes h2, brBind_ok, namedKeys_rt c.named_keys h3, brBind_ok,
    u64_rt c.protocol_version h4, brBind_ok]

theorem value_rt (v : Value) (h : v.wf) (rest : Bytes) :
    Value.from_bytes (Value.to_bytes v ++ rest) = .ok (v, rest) := by
  cases v with
  | Int32 i =>
      show Value.from_bytes (0 :: (i32ToBytes i ++ rest)) = _
      rw [Value.from_bytes, show u8FromBytes (0 :: (i32ToBytes i ++ rest)) =
        .ok (0, i32ToBytes i ++ rest) from rfl, brBind_ok]
      show brBind (i32FromBytes (i32ToBytes i ++ rest)) _ = _
      rw [i32_rt i h, brBind_ok]
  | ByteArray arr =>
      show Value.from_bytes (1 :: (vecU8ToBytes arr ++ rest)) = _
      rw [Value.from_bytes, show u8FromBytes (1 :: (vecU8ToBytes arr ++ rest)) =
        .ok (1, vecU8ToBytes arr ++ rest) from rfl, brBind_ok]
      show brBind (vecU8FromBytes (vecU8ToBytes arr ++ rest)) _ = _
      rw [vecU8_rt arr h.2, brBind_ok]
  | ListInt32 arr =>
      show Value.from_bytes (2 :: (listToBytes i32ToBytes arr ++ rest)) = _
      rw [Value.from_bytes, show u8FromBytes (2 :: (listToBytes i32ToBytes arr ++ rest)) =
        .ok (2, listToBytes i32ToBytes arr ++ rest) from rfl, brBind_ok]
      show brBind (listFromBytes i32FromBytes (listToBytes i32ToBytes arr ++ rest)) _ = _
      rw [list_rt _ _ arr h.1 rest (fun i hi r => i32_rt i (h.2 i hi) r), brBind_ok]
  | String s =>
      show Value.from_bytes (3 :: (strToBytes s ++ rest)) = _
      rw [Value.from_bytes, show u8FromBytes (3 :: (strToBytes s ++ rest)) =
        .ok (3, strToBytes s ++ rest) from rfl, brBind_ok]
      show brBind (strFromBytes (strToBytes s ++ rest)) _ = _
      rw [str_rt s h, brBind_ok]
  | ListString arr =>
      show Value.from_bytes (7 :: (listToBytes strToBytes arr ++ rest)) = _
      rw [Value.from_bytes, show u8FromBytes (7 :: (listToBytes strToBytes arr ++ rest)) =
        .ok (7, listToBytes strToBytes arr ++ rest) from rfl, brBind_ok]
      show brBind (listFromBytes strFromBytes (listToBytes strToBytes arr ++ rest)) _ = _
      rw [list_rt _ _ arr h.1 rest (fun s hs r => str_rt s (h.2 s hs) r), brBind_ok]
  | NamedKey n k =>
      show Value.from_bytes (6 :: ((strToBytes n ++ Key.to_bytes k) ++ rest)) = _
      rw [Value.from_bytes, List.append_assoc, show
        u8FromBytes (6 :: (strToBytes n ++ (Key.to_bytes k ++ rest))) =
        .ok (6, strToBytes n ++ (Key.to_bytes k ++ rest)) from rfl, brBind_ok]
      show brBind (strFromBytes (strToBytes n ++ (Key.to_bytes k ++ rest))) _ = _
      rw [str_rt n h.1, brBind_ok, key_rt k h.2, brBind_ok]
  | Account a =>
      show Value.from_bytes (4 :: (Account.to_bytes a ++ rest)) = _
      rw [Value.from_bytes, show u8FromBytes (4 :: (Account.to_bytes a ++ rest)) =
        .ok (4, Account.to_bytes a ++ rest) from rfl, brBind_ok]
      show brBind (Account.from_bytes (Account.to_bytes a ++ rest)) _ = _
      rw [account_rt a h, brBind_ok]
  | Contract c =>
      show Value.from_bytes (5 :: (Contract.to_bytes c ++ rest)) = _
      rw [Value.from_bytes, show u8FromBytes (5 :: (Contract.to_bytes c ++ rest)) =
        .ok (5, Contract.to_bytes c ++ rest) from rfl, brBind_ok]
      show brBind (Contract.from_bytes (Contract.to_bytes c ++ rest)) _ = _
      rw [contract_rt c h, brBind_ok]

/-! ## Canonicity lemmas: an accepted byte string is exactly the encoding
of its decoded result followed by the unconsumed remainder. -/

theorem wfBytes_append {a b : Bytes} (h : wfBytes (a ++ b)) : wfBytes a ∧ wfBytes b := by
  constructor
  · exact fun x hx => h x (List.mem_append_left b hx)
  · exact fun x hx => h x (List.mem_append_right a hx)

theorem u8_canonical {b : Bytes} {n : Nat} {rest : Bytes}
    (h : u8FromBytes b = .ok (n, rest)) : b = u8ToBytes n ++ rest := by
  cases b with
  | nil => cases h
  | cons x xs =>
      rw [u8FromBytes] at h
      injection h with h2
      injection h2 with ha hb
      rw [u8ToBytes, ha, hb]
      rfl

theorem u32_canonical {b : Bytes} {n : Nat} {rest : Bytes} (hwf : wfBytes b)
    (h : u32FromBytes b = .ok (n, rest)) :
    b = u32ToBytes n ++ rest ∧ n < 4294967296 := by
  match b, h with
  | b0 :: b1 :: b2 :: b3 :: r, h =>
      rw [u32FromBytes] at h
      injection h with h2
      injection h2 with ha hb
      have h0 : b0 < 256 := hwf b0 (by simp)
      have h1 : b1 < 256 := hwf b1 (by simp)
      have h2 : b2 < 256 := hwf b2 (by simp)
      have h3 : b3 < 256 := hwf b3 (by simp)
      subst hb
      rw [u32ToBytes]
      constructor
      · simp only [List.cons_append, List.nil_append, List.cons.injEq, and_true]
        omega
      · omega

theorem u64_canonical {b : Bytes} {n : Nat} {rest : Bytes} (hwf : wfBytes b)
    (h : u64FromBytes b = .ok (n, rest)) :
    b = u64ToBytes n ++ rest ∧ n < 18446744073709551616 := by
  match b, h with
  | b0 :: b1 :: b2 :: b3 :: b4 :: b5 :: b6 :: b7 :: r, h =>
      rw [u64FromBytes] at h
      injection h with h2
      injection h2 with ha hb
      have h0 : b0 < 256 := hwf b0 (by simp)
      have h1 : b1 < 256 := hwf b1 (by simp)
      have h2 : b2 < 256 := hwf b2 (by simp)
      have h3 : b3 < 256 := hwf b3 (by simp)
      have h4 : b4 < 256 := hwf b4 (by simp)
      have h5 : b5 < 256 := hwf b5 (by simp)
      have h6 : b6 < 256 := hwf b6 (by simp)
      have h7 : b7 < 256 := hwf b7 (by simp)
      subst hb
      rw [u64ToBytes]
      constructor
      · simp only [List.cons_append, List.nil_append, List.cons.injEq, and_true]
        omega
      · omega

theorem i32_canonical {b : Bytes} {i : Int} {rest : Bytes} (hwf : wfBytes b)
    (h : i32FromBytes b = .ok (i, rest)) : b = i32ToBytes i ++ rest := by
  rw [i32FromBytes] at h
  obtain ⟨n, r, hu, hf⟩ := brBind_ok_inv h
  injection hf with hf2
  injection hf2 with ha hb
  obtain ⟨hb2, hn⟩ := u32_canonical hwf hu
  subst hb
  rw [hb2, i32ToBytes]
  have : (i % 4294967296).toNat = n := by
    subst ha
    split <;> omega
  rw [this]

theorem safeSplitAt_canonical {n : Nat} {b v rest : Bytes}
    (h : safeSplitAt n b = .ok (v, rest)) : b = v ++ rest ∧ v.length = n := by
  rw [safeSplitAt] at h
  split at h
  · injection h with h2
    injection h2 with ha hb
    subst ha
    subst hb
    exact ⟨(List.take_append_drop n b).symm, List.length_take_of_le (by assumption)⟩
  · cases h

theorem vecU8_canonical {b v rest : Bytes} (hwf : wfBytes b)
    (h : vecU8FromBytes b = .ok (v, rest)) : b = vecU8ToBytes v ++ rest := by
  rw [vecU8FromBytes] at h
  obtain ⟨n, r, hu, hf⟩ := brBind_ok_inv h
  obtain ⟨hb, _⟩ := u32_canonical hwf hu
  obtain ⟨hr, hlen⟩ := safeSplitAt_canonical hf
  rw [vecU8ToBytes, hb, hr, hlen, List.append_assoc]

theorem arr32_canonical {b v rest : Bytes} (hwf : wfBytes b)
    (h : arr32FromBytes b = .ok (v, rest)) :
    b = arr32ToBytes v ++ rest ∧ v.length = 32 := by
  rw [arr32FromBytes] at h
  obtain ⟨w, r, hv, hf⟩ := brBind_ok_inv h
  split at hf
  · injection hf with hf2
    injection hf2 with ha hb
    subst ha
    subst hb
    exact ⟨vecU8_canonical hwf hv, by assumption⟩
  · cases hf

theorem str_canonical {b : Bytes} {s : RStr} {rest : Bytes} (hwf : wfBytes b)
    (h : strFromBytes b = .ok (s, rest)) : b = strToBytes s ++ rest :=
  vecU8_canonical hwf h

theorem accessRights_canonical {b : Bytes} {a : AccessRights} {rest : Bytes}
    (h : AccessRights.from_bytes b = .ok (a, rest)) :
    b = a.to_bytes ++ rest ∧ a.wf := by
  rw [AccessRights.from_bytes] at h
  obtain ⟨id, r, hu, hf⟩ := brBind_ok_inv h
  split at hf
  · injection hf with hf2
    injection hf2 with ha hb
    subst hb
    have hbb := u8_canonical hu
    rw [AccessRights.to_bytes, ← ha]
    exact ⟨hbb, by rw [← ha] at *; exact (by assumption : id < 8)⟩
  · cases hf

theorem optRights_canonical {b : Bytes} {r : Option AccessRights} {rest : Bytes}
    (h : optRightsFromBytes b = .ok (r, rest)) :
    b = optRightsToBytes r ++ rest ∧ ∀ x ∈ r.toList, x.wf := by
  rw [optRightsFromBytes] at h
  obtain ⟨tag, r1, hu, hf⟩ := brBind_ok_inv h
  have hb := u8_canonical hu
  rcases tag with _ | _ | t
  · injection hf with hf2
    injection hf2 with ha hb2
    subst hb2
    subst ha
    exact ⟨hb, by intro x hx; cases hx⟩
  · obtain ⟨a, r2, har, hf2⟩ := brBind_ok_inv hf
    injection hf2 with hf3
    injection hf3 with ha hb2
    subst hb2
    subst ha
    obtain ⟨hr1, haw⟩ := accessRights_canonical har
    constructor
    · rw [hb, hr1]
      rfl
    · intro x hx
      simp only [Option.toList_some, List.mem_singleton] at hx
      rw [hx]
      exact haw
  · cases hf

theorem listFromBytesAux_canonical (dec : Bytes → Except BrError (α × Bytes))
    (enc : α → Bytes)
    (hdec : ∀ b x r, wfBytes b → dec b = .ok (x, r) → b = enc x ++ r) :
    ∀ (n : Nat) (b : Bytes) (l : List α) (rest : Bytes), wfBytes b →
      listFromBytesAux dec n b = .ok (l, rest) →
      b = (l.map enc).flatten ++ rest ∧ l.length = n := by
  intro n
  induction n with
  | zero =>
      intro b l rest hwf h
      rw [listFromBytesAux] at h
      injection h with h2
      injection h2 with ha hb
      subst hb
      subst ha
      exact ⟨rfl, rfl⟩
  | succ m ih =>
      intro b l rest hwf h
      rw [listFromBytesAux] at h
      obtain ⟨x, r, hx, h2⟩ := brBind_ok_inv h
      obtain ⟨xs, r2, hxs, h3⟩ := brBind_ok_inv h2
      injection h3 with h4
      injection h4 with ha hb
      subst hb
      subst ha
      have hbx := hdec b x r hwf hx
      have hwfr : wfBytes r := (wfBytes_append (hbx ▸ hwf)).2
      obtain ⟨hr, hlen⟩ := ih r xs _ hwfr hxs
      refine ⟨?_, by rw [List.length_cons, hlen]⟩
      rw [hbx, hr, List.map_cons, List.flatten_cons, List.append_assoc]

theorem list_canonical (dec : Bytes → Except BrError (α × Bytes)) (enc : α → Bytes)
    (hdec : ∀ b x r, wfBytes b → dec b = .ok (x, r) → b = enc x ++ r)
    {b : Bytes} {l : List α} {rest : Bytes} (hwf : wfBytes b)
    (h : listFromBytes dec b = .ok (l, rest)) : b = listToBytes enc l ++ rest := by
  rw [listFromBytes] at h
  obtain ⟨n, r, hn, hf⟩ := brBind_ok_inv h
  obtain ⟨hb, _⟩ := u32_canonical hwf hn
  have hwfr : wfBytes r := (wfBytes_append (hb ▸ hwf)).2
  obtain ⟨hr, hlen⟩ := listFromBytesAux_canonical dec enc hdec n r l rest hwfr hf
  rw [hb, hr, listToBytes, hlen, List.append_assoc]

theorem key_canonical {b : Bytes} {k : Key} {rest : Bytes} (hwf : wfBytes b)
    (h : Key.from_bytes b = .ok (k, rest)) : b = Key.to_bytes k ++ rest := by
  rw [Key.from_bytes] at h
  obtain ⟨id, r1, hu, hf⟩ := brBind_ok_inv h
  have hb := u8_canonical hu
  have hwfr : wfBytes r1 := (wfBytes_append (hb ▸ hwf)).2
  rcases id with _ | _ | _ | _ | t
  · obtain ⟨addr, r2, ha, hf2⟩ := brBind_ok_inv hf
    injection hf2 with hf3
    injection hf3 with hk hr
    subst hr
    subst hk
    obtain ⟨hr1, _⟩ := arr32_canonical hwfr ha
    rw [hb, hr1]
    rfl
  · obtain ⟨addr, r2, ha, hf2⟩ := brBind_ok_inv hf
    injection hf2 with hf3
    injection hf3 with hk hr
    subst hr
    subst hk
    obtain ⟨hr1, _⟩ := arr32_canonical hwfr ha
    rw [hb, hr1]
    rfl
  · obtain ⟨addr, r2, ha, hf2⟩ := brBind_ok_inv hf
    obtain ⟨mr, r3, hmr, hf3⟩ := brBind_ok_inv hf2
    injection hf3 with hf4
    injection hf4 with hk hr
    subst hr
    subst hk
    obtain ⟨hr1, _⟩ := arr32_canonical hwfr ha
    have hwfr2 : wfBytes r2 := (wfBytes_append (hr1 ▸ hwfr)).2
    obtain ⟨hr2, _⟩ := optRights_canonical hmr
    rw [hb, hr1, hr2]
    simp [Key.to_bytes, u8ToBytes]
  · obtain ⟨seed, r2, hs, hf2⟩ := brBind_ok_inv hf
    obtain ⟨kh, r3, hkh, hf3⟩ := brBind_ok_inv hf2
    injection hf3 with hf4
    injection hf4 with hk hr
    subst hr
    subst hk
    obtain ⟨hr1, _⟩ := arr32_canonical hwfr hs
    have hwfr2 : wfBytes r2 := (wfBytes_append (hr1 ▸ hwfr)).2
    obtain ⟨hr2, _⟩ := arr32_canonical hwfr2 hkh
    rw [hb, hr1, hr2]
    simp [Key.to_bytes, u8ToBytes]
  · cases hf

theorem namedKey_canonical {b : Bytes} {p : RStr × Key} {rest : Bytes} (hwf : wfBytes b)
    (h : namedKeyFromBytes b = .ok (p, rest)) :
    b = (strToBytes p.1 ++ Key.to_bytes p.2) ++ rest := by
  rw [namedKeyFromBytes] at h
  obtain ⟨n, r1, hn, hf⟩ := brBind_ok_inv h
  obtain ⟨k, r2, hk, hf2⟩ := brBind_ok_inv hf
  injection hf2 with hf3
  injection hf3 with hp hr
  subst hr
  subst hp
  have hb := str_canonical hwf hn
  have hwfr : wfBytes r1 := (wfBytes_append (hb ▸ hwf)).2
  have hr1 := key_canonical hwfr hk
  rw [hb, hr1, List.append_assoc]

theorem urefV_canonical {b : Bytes} {u : URefV} {rest : Bytes} (hwf : wfBytes b)
    (h : urefVFromBytes b = .ok (u, rest)) : b = urefVToBytes u ++ rest := by
  rw [urefVFromBytes] at h
  obtain ⟨a, r1, ha, hf⟩ := brBind_ok_inv h
  obtain ⟨r, r2, hr, hf2⟩ := brBind_ok_inv hf
  injection hf2 with hf3
  injection hf3 with hu hrest
  subst hrest
  subst hu
  obtain ⟨hb, _⟩ := arr32_canonical hwf ha
  have hwfr : wfBytes r1 := (wfBytes_append (hb ▸ hwf)).2
  obtain ⟨hr1, _⟩ := accessRights_canonical hr
  rw [hb, hr1, urefVToBytes, List.append_assoc]

theorem assocKey_canonical {b : Bytes} {p : Bytes × Nat} {rest : Bytes} (hwf : wfBytes b)
    (h : assocKeyFromBytes b = .ok (p, rest)) : b = assocKeyToBytes p ++ rest := by
  rw [assocKeyFromBytes] at h
  obtain ⟨pk, r1, hpk, hf⟩ := brBind_ok_inv h
  obtain ⟨w, r2, hw, hf2⟩ := brBind_ok_inv hf
  injection hf2 with hf3
  injection hf3 with hp hrest
  subst hrest
  subst hp
  obtain ⟨hb, _⟩ := arr32_canonical hwf hpk
  have hwfr : wfBytes r1 := (wfBytes_append (hb ▸ hwf)).2
  have hr1 := u8_canonical hw
  rw [hb, hr1, assocKeyToBytes, List.append_assoc]

theorem account_canonical {b : Bytes} {a : Account} {rest : Bytes} (hwf : wfBytes b)
    (h : Account.from_bytes b = .ok (a, rest)) : b = Account.to_bytes a ++ rest := by
  rw [Account.from_bytes] at h
  obtain ⟨pk, r1, hpk, h⟩ := brBind_ok_inv h
  obtain ⟨nonce, r2, hnonce, h⟩ := brBind_ok_inv h
  obtain ⟨purse, r3, hpurse, h⟩ := brBind_ok_inv h
  obtain ⟨nk, r4, hnk, h⟩ := brBind_ok_inv h
  obtain ⟨ak, r5, hak, h⟩ := brBind_ok_inv h
  obtain ⟨t1, r6, ht1, h⟩ := brBind_ok_inv h
  obtain ⟨t2, r7, ht2, h⟩ := brBind_ok_inv h
  injection h with h2
  injection h2 with ha hrest
  subst hrest
  subst ha
  obtain ⟨hb, _⟩ := arr32_canonical hwf hpk
  have hwf1 : wfBytes r1 := (wfBytes_append (hb ▸ hwf)).2
  obtain ⟨hb1, _⟩ := u64_canonical hwf1 hnonce
  have hwf2 : wfBytes r2 := (wfBytes_append (hb1 ▸ hwf1)).2
  have hb2 := urefV_canonical hwf2 hpurse
  have hwf3 : wfBytes r3 := (wfBytes_append (hb2 ▸ hwf2)).2
  have hb3 := list_canonical namedKeyFromBytes _
    (fun b x r hw hx => namedKey_canonical hw hx) hwf3 hnk
  have hwf4 : wfBytes r4 := (wfBytes_append (hb3 ▸ hwf3)).2
  have hb4 := list_canonical assocKeyFromBytes _
    (fun b x r hw hx => assocKey_canonical hw hx) hwf4 hak
  have hwf5 : wfBytes r5 := (wfBytes_append (hb4 ▸ hwf4)).2
  have hb5 := u8_canonical ht1
  have hb6 := u8_canonical ht2
  rw [hb, hb1, hb2, hb3, hb4, hb5, hb6, Account.to_bytes]
  simp only [List.append_assoc]
  rfl

theorem contract_canonical {b : Bytes} {c : Contract} {rest : Bytes} (hwf : wfBytes b)
    (h : Contract.from_bytes b = .ok (c, rest)) : b = Contract.to_bytes c ++ rest := by
  rw [Contract.from_bytes] at h
  obtain ⟨bs, r1, hbs, h⟩ := brBind_ok_inv h
  obtain ⟨nk, r2, hnk, h⟩ := brBind_ok_inv h
  obtain ⟨pv, r3, hpv, h⟩ := brBind_ok_inv h
  injection h with h2
  injection h2 with hc hrest
  subst hrest
  subst hc
  have hb := vecU8_canonical hwf hbs
  have hwf1 : wfBytes r1 := (wfBytes_append (hb ▸ hwf)).2
  have hb1 := list_canonical namedKeyFromBytes _
    (fun b x r hw hx => namedKey_canonical hw hx) hwf1 hnk
  have hwf2 : wfBytes r2 := (wfBytes_append (hb1 ▸ hwf1)).2
  obtain ⟨hb2, _⟩ := u64_canonical hwf2 hpv
  rw [hb, hb1, hb2, Contract.to_bytes]
  simp only [List.append_assoc]
  rfl

theorem value_canonical {b : Bytes} {v : Value} {rest : Bytes} (hwf : wfBytes b)
    (h : Value.from_bytes b = .ok (v, rest)) : b = Value.to_bytes v ++ rest := by
  rw [Value.from_bytes] at h
  obtain ⟨id, r1, hu, hf⟩ := brBind_ok_inv h
  have hb := u8_canonical hu
  have hwfr : wfBytes r1 := (wfBytes_append (hb ▸ hwf)).2
  rcases id with _ | _ | _ | _ | _ | _ | _ | _ | t
  · obtain ⟨i, r2, hi, hf2⟩ := brBind_ok_inv hf
    injection hf2 with hf3
    injection hf3 with hv hr
    subst hr
    subst hv
    rw [hb, i32_canonical hwfr hi]
    rfl
  · obtain ⟨arr, r2, harr, hf2⟩ := brBind_ok_inv hf
    injection hf2 with hf3
    injection hf3 with hv hr
    subst hr
    subst hv
    rw [hb, vecU8_canonical hwfr harr]
    rfl
  · obtain ⟨arr, r2, harr, hf2⟩ := brBind_ok_inv hf
    injection hf2 with hf3
    injection hf3 with hv hr
    subst hr
    subst hv
    rw [hb, list_canonical i32FromBytes i32ToBytes
      (fun b x r hw hx => i32_canonical hw hx) hwfr harr]
    rfl
  · obtain ⟨s, r2, hs, hf2⟩ := brBind_ok_inv hf
    injection hf2 with hf3
    injection hf3 with hv hr
    subst hr
    subst hv
    rw [hb, str_canonical hwfr hs]
    rfl
  · obtain ⟨a, r2, ha, hf2⟩ := brBind_ok_inv hf
    injection hf2 with hf3
    injection hf3 with hv hr
    subst hr
    subst hv
    rw [hb, account_canonical hwfr ha]
    rfl
  · obtain ⟨c, r2, hc, hf2⟩ := brBind_ok_inv hf
    injection hf2 with hf3
    injection hf3 with hv hr
    subst hr
    subst hv
    rw [hb, contract_canonical hwfr hc]
    rfl
  · obtain ⟨n, r2, hn, hf2⟩ := brBind_ok_inv hf
    obtain ⟨k, r3, hk, hf3⟩ := brBind_ok_inv hf2
    injection hf3 with hf4
    injection hf4 with hv hr
    subst hr
    subst hv
    have hb1 := str_canonical hwfr hn
    have hwfr2 : wfBytes r2 := (wfBytes_append (hb1 ▸ hwfr)).2
    rw [hb, hb1, key_canonical hwfr2 hk]
    simp [Value.to_bytes, u8ToBytes]
  · obtain ⟨arr, r2, harr, hf2⟩ := brBind_ok_inv hf
    injection hf2 with hf3
    injection hf3 with hv hr
    subst hr
    subst hv
    rw [hb, list_canonical strFromBytes strToBytes
      (fun b x r hw hx => str_canonical hw hx) hwfr harr]
    rfl
  · cases hf

/-! ## Claim theorems -/

/-- C1: for every well-formed `Key` and `Value` x, deserialization inverts
serialization exactly and consumes all bytes — `from_bytes (to_bytes x)`
succeeds and returns `(x, empty remainder)`. -/
theorem key_value_roundtrip (k : Key) (v : Value) (hk : k.wf) (hv : v.wf) :
    Key.from_bytes (Key.to_bytes k) = .ok (k, []) ∧
    Value.from_bytes (Value.to_bytes v) = .ok (v, []) := by
  constructor
  · have h := key_rt k hk []
    rwa [List.append_nil] at h
  · have h := value_rt v hv []
    rwa [List.append_nil] at h

def c1Key : Key := Key.URef (List.replicate 32 0) (some AccessRights.READ_WRITE)

def c1Value : Value :=
  Value.Account ⟨List.replicate 32 2, 7, ⟨List.replicate 32 3, AccessRights.READ_ADD_WRITE⟩,
    [([109, 105, 110, 116], Key.Hash (List.replicate 32 4))], [(List.replicate 32 2, 1)], (1, 1)⟩

/-- C1 witness: the round trip evaluated at a concrete URef key and a
concrete Account value. -/
theorem key_value_roundtrip_witness :
    Key.from_bytes (Key.to_bytes c1Key) = .ok (c1Key, []) ∧
    Value.from_bytes (Value.to_bytes c1Value) = .ok (c1Value, []) :=
  key_value_roundtrip c1Key c1Value (by decide) (by decide)

/-- C5 (amended): the `Value` sum type comprises exactly `Int32`,
`ByteArray`, `ListInt32`, `String`, `ListString`, `NamedKey`, `Account`,
`Contract`, with serialization tags 0–7 (one per variant); every other
tag — in particular any tag a `UInt512` or `Key` indirection variant
would claim — is rejected with `FormattingError`, and no variant of the
type is a `UInt512` or `Key` variant. -/
theorem value_variant_tags :
    (∀ t rest, 7 < t → Value.from_bytes (t :: rest) = .error .formattingError) ∧
    (∀ v : Value, valueTag v ≤ 7 ∧ (Value.to_bytes v).head? = some (valueTag v)) ∧
    (∀ v w : Value, valueTag v = valueTag w → Value.type_string v = Value.type_string w) ∧
    (∀ v : Value, Value.type_string v ≠ "UInt512" ∧ Value.type_string v ≠ "Key") := by
  refine ⟨?_, ?_, ?_, ?_⟩
  · intro t rest ht
    rw [Value.from_bytes, show u8FromBytes (t :: rest) = .ok (t, rest) from rfl, brBind_ok]
    rcases t with _ | _ | _ | _ | _ | _ | _ | _ | t
    · omega
    · omega
    · omega
    · omega
    · omega
    · omega
    · omega
    · omega
    · rfl
  · intro v
    cases v <;> exact ⟨by simp only [valueTag]; omega, rfl⟩
  · intro v w h
    cases v <;> cases w <;> simp_all [valueTag, Value.type_string]
  · intro v
    cases v <;>
      exact ⟨by simp only [Value.type_string]; decide, by simp only [Value.type_string]; decide⟩

/-- C5 counterexample: were `UInt512` or `Key(Key)` variants of this
`Value` with serialization tags of their own, some tag beyond the eight
of the source would decode; every such tag is a `FormattingError`,
exhibited at tags 8 and 9. -/
theorem value_has_no_ninth_tag :
    Value.from_bytes [8, 0, 0, 0, 0] = .error .formattingError ∧
    Value.from_bytes [9, 0, 0, 0, 0] = .error .formattingError := ⟨rfl, rfl⟩

/-- C6 (amended): for `Key` and `Value`, an accepted byte string is
exactly the canonical encoding of its decoded result — if `from_bytes b`
succeeds the input equals `to_bytes` of the result plus the remainder.
(The counterexample shows this fails for `U512`.) -/
theorem serialization_canonical (b : Bytes) (hwf : wfBytes b) :
    (∀ v rest, Value.from_bytes b = .ok (v, rest) → b = Value.to_bytes v ++ rest) ∧
    (∀ k rest, Key.from_bytes b = .ok (k, rest) → b = Key.to_bytes k ++ rest) :=
  ⟨fun _ _ h => value_canonical hwf h, fun _ _ h => key_canonical hwf h⟩

/-- C6 witness: canonicity applied at the five-byte encoding of
`Int32 5`. -/
theorem serialization_canonical_witness :
    (∀ v rest, Value.from_bytes [0, 5, 0, 0, 0] = .ok (v, rest) →
      [0, 5, 0, 0, 0] = Value.to_bytes v ++ rest) ∧
    (∀ k rest, Key.from_bytes [0, 5, 0, 0, 0] = .ok (k, rest) →
      [0, 5, 0, 0, 0] = Key.to_bytes k ++ rest) :=
  serialization_canonical [0, 5, 0, 0, 0] (by decide)

/-- C6 counterexample: `U512` deserialization accepts the non-canonical
leading-zero-padded encoding `[2, 5, 0]` of the value 5 with empty
remainder, yet `to_bytes 5 = [1, 5]`, so `b = to_bytes(v)` fails. -/
theorem u512_accepts_noncanonical :
    u512FromBytes [2, 5, 0] = .ok (5, []) ∧
    u512FromBytes (u512ToBytes 5) = .ok (5, []) ∧
    u512ToBytes 5 = [1, 5] ∧
    decide (([2, 5, 0] : Bytes) = u512ToBytes 5) = false := ⟨rfl, rfl, rfl, rfl⟩

/-- C7: `normalize` replaces the rights of a `URef` key by `None`, is the
identity on `Account`, `Hash` and `Local` keys, is idempotent, and two
keys differing only in URef access rights are equal — and order
identically against any third key — after normalization. -/
theorem normalize_drops_uref_rights :
    (∀ a r, Key.normalize (Key.URef a r) = Key.URef a none) ∧
    (∀ a, Key.normalize (Key.Account a) = Key.Account a) ∧
    (∀ a, Key.normalize (Key.Hash a) = Key.Hash a) ∧
    (∀ s kh, Key.normalize (Key.Local s kh) = Key.Local s kh) ∧
    (∀ k, Key.normalize (Key.normalize k) = Key.normalize k) ∧
    (∀ a r1 r2, Key.normalize (Key.URef a r1) = Key.normalize (Key.URef a r2)) ∧
    (∀ a r1 r2 k, keyCmp (Key.normalize (Key.URef a r1)) k =
      keyCmp (Key.normalize (Key.URef a r2)) k) := by
  refine ⟨fun a r => rfl, fun a => rfl, fun a => rfl, fun s kh => rfl, ?_,
    fun a r1 r2 => rfl, fun a r1 r2 k => rfl⟩
  intro k
  cases k <;> rfl

/-- C9: a successful `checkout(h)` replaces the entire active state with
the snapshot stored for root `h` — every key's value afterwards equals
the snapshot's, discarding any uncommitted modification — while checkout
of an unknown root returns `RootNotFound` and leaves the whole state
(active and history) unchanged. -/
theorem checkout_replaces_active_state (gs : InMemGS) (root : Bytes) :
    (assocLookup gs.history root = none →
      InMemGS.checkout gs root = (gs, .error (.RootNotFound root))) ∧
    (∀ snap, assocLookup gs.history root = some snap →
      InMemGS.checkout gs root = (⟨snap, gs.history⟩, .ok ()) ∧
      ∀ k, assocLookup (InMemGS.checkout gs root).1.active_state k = assocLookup snap k) := by
  constructor
  · intro h
    rw [InMemGS.checkout, h]
  · intro snap h
    rw [InMemGS.checkout, h]
    exact ⟨rfl, fun k => rfl⟩

/-- C2 evidence: the byte string `get_root_hash` feeds blake2b is the
concatenation of the serialized entries in the state map's iteration
order, so two enumerations of the same two-entry map produce different
hasher inputs. -/
def c2KeyA : Key := Key.Account (List.replicate 32 0)

def c2KeyB : Key := Key.Hash (List.replicate 32 1)

def c2StateOne : List (Key × Value) := [(c2KeyA, Value.Int32 0), (c2KeyB, Value.Int32 1)]

def c2StateTwo : List (Key × Value) := [(c2KeyB, Value.Int32 1), (c2KeyA, Value.Int32 0)]

/-- C2: the two enumeration orders of the same two-entry state agree as
maps on both keys, yet `rootHashData` — the exact byte string
`get_root_hash` hashes — differs between them, so the root hash depends
on the `HashMap` iteration order rather than on the map alone. -/
theorem root_hash_data_order_dependent :
    decide (rootHashData c2StateOne = rootHashData c2StateTwo) = false ∧
    assocLookup c2StateOne c2KeyA = assocLookup c2StateTwo c2KeyA ∧
    assocLookup c2StateOne c2KeyB = assocLookup c2StateTwo c2KeyB := ⟨rfl, rfl, rfl⟩

/-- Every error produced by one step of the commit fold is a typed
`KeyNotFound` or `TypeMismatch`. -/
theorem commitStep_error_shape (active : List (Key × Value)) (k : Key) (t : Transform)
    (active2 : List (Key × Value)) (e : Error)
    (h : commitStep active k t = (active2, some e)) :
    (∃ k2, e = .KeyNotFound k2) ∨ (∃ tm, e = .TypeMismatchErr tm) := by
  rw [commitStep.eq_def] at h
  cases hl : assocLookup active k with
  | none =>
      cases t with
      | Write v =>
          simp only [hl] at h
          exact absurd h (by simp)
      | Identity =>
          simp only [hl, Prod.mk.injEq, Option.some.injEq] at h
          exact Or.inl ⟨k, h.2.symm⟩
      | AddInt32 i =>
          simp only [hl, Prod.mk.injEq, Option.some.injEq] at h
          exact Or.inl ⟨k, h.2.symm⟩
      | AddUInt512 u =>
          simp only [hl, Prod.mk.injEq, Option.some.injEq] at h
          exact Or.inl ⟨k, h.2.symm⟩
      | AddKeys m =>
          simp only [hl, Prod.mk.injEq, Option.some.injEq] at h
          exact Or.inl ⟨k, h.2.symm⟩
      | Failure tm =>
          simp only [hl, Prod.mk.injEq, Option.some.injEq] at h
          exact Or.inl ⟨k, h.2.symm⟩
  | some curr =>
      cases ha : Transform.apply t curr with
      | ok newValue =>
          simp only [hl, ha] at h
          exact absurd h (by simp)
      | error tm =>
          simp only [hl, ha, Prod.mk.injEq, Option.some.injEq] at h
          exact Or.inr ⟨tm, h.2.symm⟩

theorem commitFold_error_shape :
    ∀ (effects : List (Key × Transform)) (active active2 : List (Key × Value)) (e : Error),
      commitFold active effects = (active2, some e) →
      (∃ k2, e = .KeyNotFound k2) ∨ (∃ tm, e = .TypeMismatchErr tm) := by
  intro effects
  induction effects with
  | nil =>
      intro active active2 e h
      rw [commitFold] at h
      exact absurd h (by simp)
  | cons kt rest ih =>
      intro active active2 e h
      cases kt with
      | mk k t =>
          rw [commitFold] at h
          cases hs : commitStep active k t with
          | mk a2 err =>
              cases err with
              | some e2 =>
                  simp only [hs, Prod.mk.injEq, Option.some.injEq] at h
                  exact h.2 ▸ commitStep_error_shape active k t a2 e2 hs
              | none =>
                  simp only [hs] at h
                  exact ih _ _ _ h

/-- C3 (amended): when applying any transform fails, `commit` returns the
corresponding typed error — `TypeMismatch`, or `KeyNotFound` for a key
absent from the state whose transform is not a `Write` — and records no
new root in history; the active pre-commit state, however, is not rolled
back (effects folded before the failure stay applied, and a failing
apply leaves its key removed). -/
theorem commit_error_no_new_root (hash : Bytes → Bytes) (gs gs2 : InMemGS)
    (effects : List (Key × Transform)) (e : Error)
    (h : InMemGS.commit hash gs effects = (gs2, .error e)) :
    gs2.history = gs.history ∧
    ((∃ k2, e = .KeyNotFound k2) ∨ (∃ tm, e = .TypeMismatchErr tm)) := by
  rw [InMemGS.commit] at h
  cases hf : commitFold gs.active_state effects with
  | mk a2 err =>
      cases err with
      | some e2 =>
          simp only [hf, Prod.mk.injEq, Except.error.injEq] at h
          obtain ⟨h1, h2⟩ := h
          constructor
          · rw [← h1]
          · exact h2 ▸ commitFold_error_shape effects _ _ _ hf
      | none =>
          simp only [hf] at h
          exact absurd h (by simp)

def c3gs : InMemGS := ⟨[], [([0], [])]⟩

def c3Write : Key := Key.Account (List.replicate 32 5)

def c3Missing : Key := Key.Hash (List.replicate 32 6)

def c3Effects : List (Key × Transform) :=
  [(c3Write, .Write (Value.Int32 1)), (c3Missing, .Identity)]

/-- C3 counterexample: a commit whose second transform fails returns the
typed `KeyNotFound` error, but the pre-commit active state is NOT left
unchanged — the first transform's write is still applied afterwards. -/
theorem commit_error_mutates_state :
    (InMemGS.commit (fun b => b) c3gs c3Effects).2 = .error (.KeyNotFound c3Missing) ∧
    assocLookup (InMemGS.commit (fun b => b) c3gs c3Effects).1.active_state c3Write =
      some (Value.Int32 1) ∧
    assocLookup c3gs.active_state c3Write = none := ⟨rfl, rfl, rfl⟩

/-- C3 witness: the amended theorem applied to a one-transform commit on
the empty state. -/
theorem commit_error_no_new_root_witness :
    (⟨[], [([0], [])]⟩ : InMemGS).history = c3gs.history ∧
    ((∃ k2, Error.KeyNotFound c3Missing = .KeyNotFound k2) ∨
      (∃ tm, Error.KeyNotFound c3Missing = .TypeMismatchErr tm)) :=
  commit_error_no_new_root (fun b => b) c3gs ⟨[], [([0], [])]⟩
    [(c3Missing, .Identity)] (.KeyNotFound c3Missing) rfl

/-- A deploy whose module fails preprocessing yields an `Ok(Failure)`
result without ever consulting the prestate root. -/
theorem run_deploy_preprocessing_failure {M EE : Type} (process : Bytes → Except LStr M)
    (execFn : M → Deploy → InMemGS → Except Unit EE) (gs : InMemGS) (root : Bytes)
    (d : Deploy) (e : LStr) (hp : process d.module_bytes = .error e) :
    run_deploy process execFn gs root d = (gs, .ok (.Failure (.PreprocessingError e))) := by
  rw [run_deploy, hp]

/-- A deploy whose module preprocesses against an unknown root fails the
checkout and propagates `RootNotFound` as the `Err` of `run_deploy`. -/
theorem run_deploy_root_missing {M EE : Type} (process : Bytes → Except LStr M)
    (execFn : M → Deploy → InMemGS → Except Unit EE) (gs : InMemGS) (root : Bytes)
    (d : Deploy) (m : M) (hp : process d.module_bytes = .ok m)
    (hroot : assocLookup gs.history root = none) :
    run_deploy process execFn gs root d = (gs, .error (.RootNotFound root)) := by
  have hco : gs.checkout root = (gs, .error (.RootNotFound root)) := by
    rw [InMemGS.checkout, hroot]
  rw [run_deploy, hp, hco]

/-- C4 (amended): for every deploy list containing at least one deploy
whose module preprocesses successfully, and every prestate root absent
from history, `run_deploys` short-circuits with `Err(RootNotFound root)`
— the `MissingParent` response — and produces no per-deploy results.
(The counterexample shows the claim fails for an empty deploy list.) -/
theorem run_deploys_unknown_root {M EE : Type} (process : Bytes → Except LStr M)
    (execFn : M → Deploy → InMemGS → Except Unit EE) (gs : InMemGS) (root : Bytes)
    (ds : List Deploy) (hroot : assocLookup gs.history root = none)
    (hsome : ∃ d ∈ ds, (process d.module_bytes).isOk = true) :
    (run_deploys process execFn gs root ds).2 = .error (.RootNotFound root) := by
  induction ds with
  | nil =>
      obtain ⟨d, hd, _⟩ := hsome
      cases hd
  | cons d ds ih =>
      cases hp : process d.module_bytes with
      | ok m =>
          rw [run_deploys, run_deploy_root_missing process execFn gs root d m hp hroot]
      | error e =>
          rw [run_deploys, run_deploy_preprocessing_failure process execFn gs root d e hp]
          have hsome2 : ∃ d2 ∈ ds, (process d2.module_bytes).isOk = true := by
            obtain ⟨d2, hd2, hok⟩ := hsome
            rcases List.mem_cons.mp hd2 with hd3 | hd3
            · subst hd3
              rw [hp] at hok
              cases hok
            · exact ⟨d2, hd3, hok⟩
          have := ih hsome2
          cases hds : run_deploys process execFn gs root ds with
          | mk gs3 res =>
              rw [hds] at this
              cases res with
              | error e2 => simp only [hds]; exact this
              | ok rs => exact absurd this (by simp)

def c4process : Bytes → Except LStr Unit := fun _ => .ok ()

def c4exec : Unit → Deploy → InMemGS → Except Unit Unit := fun _ _ _ => .ok ()

def c4Deploy : Deploy := ⟨[], [], 0, 0, 0⟩

/-- C4 counterexample: `exec` with an empty deploy list against a root no
commit ever produced returns `Success` with no per-deploy results — not
`MissingParent` — because the checkout is never attempted. -/
theorem run_deploys_empty_batch_ignores_root :
    run_deploys c4process c4exec ⟨[], []⟩ [1] ([] : List Deploy) = (⟨[], []⟩, .ok []) ∧
    assocLookup (⟨[], []⟩ : InMemGS).history [1] = none := ⟨rfl, rfl⟩

/-- C4 witness: the amended theorem at a one-deploy batch whose module
preprocesses fine, against an empty history. -/
theorem run_deploys_unknown_root_witness :
    (run_deploys c4process c4exec ⟨[], []⟩ [2] [c4Deploy]).2 =
      .error (.RootNotFound [2]) :=
  run_deploys_unknown_root c4process c4exec ⟨[], []⟩ [2] [c4Deploy] rfl
    ⟨c4Deploy, by decide, rfl⟩

/-- C8 (amended): under a successful checkout and base-key read,
`query_state` returns `Success(v)` exactly when the path fold — which
follows each string segment through the named-key map of an Account or
Contract and reads the key found there — resolves to `v`; when the fold
fails (missing segment, non-Account/Contract value, or failed read), it
returns `ValueNotFound` carrying the concatenation of ALL requested path
segments, not the prefix reached. -/
theorem query_state_spec (gs : InMemGS) (root : Bytes) (base : Key) (path : List RStr)
    (snap : List (Key × Value)) (v0 : Value)
    (hsnap : assocLookup gs.history root = some snap)
    (hbase : assocLookup snap base = some v0) :
    (∀ v, queryFold ⟨snap, gs.history⟩ v0 path = .ok v →
      query_state gs root base path = .ok v) ∧
    (∀ e, queryFold ⟨snap, gs.history⟩ v0 path = .error e →
      query_state gs root base path = .error (.ValueNotFound path.flatten)) := by
  have hco : gs.checkout root = (⟨snap, gs.history⟩, .ok ()) := by
    rw [InMemGS.checkout, hsnap]
  have hread : tcRead ⟨snap, gs.history⟩ base = .ok v0 := by
    rw [tcRead, InMemGS.get]
    rw [show (⟨snap, gs.history⟩ : InMemGS).active_state = snap from rfl, hbase]
  have step1 : query_state gs root base path = queryBody ⟨snap, gs.history⟩ base path := by
    rw [query_state, hco]
  have step2 : queryBody ⟨snap, gs.history⟩ base path =
      (match queryFold ⟨snap, gs.history⟩ v0 path with
        | .error _ => .error (.ValueNotFound path.flatten)
        | .ok v => .ok v) := by
    rw [queryBody, hread]
  constructor
  · intro v hq
    rw [step1, step2, hq]
  · intro e hq
    rw [step1, step2, hq]

def c8Base : Key := Key.Account (List.replicate 32 7)

def c8Account : Account :=
  ⟨List.replicate 32 7, 0, ⟨List.replicate 32 8, AccessRights.READ⟩, [], [], (1, 1)⟩

def c8gs : InMemGS := ⟨[], [([9], [(c8Base, Value.Account c8Account)])]⟩

/-- C8 counterexample: the two-segment query `["a", "b"]` fails at its
FIRST segment (the account has no named keys), yet the error payload is
the concatenation `"ab"` of both segments — not the path prefix reached,
which would be `"a"` (or empty). -/
theorem query_error_reports_full_path :
    query_state c8gs [9] c8Base [[97], [98]] = .error (.ValueNotFound [97, 98]) ∧
    decide (([97, 98] : RStr) = [97]) = false ∧
    decide (([97, 98] : RStr) = []) = false := ⟨rfl, rfl, rfl⟩

/-- C8 witness: the amended theorem at the same concrete state, on the
success side with the empty path and on the failure side with a missing
segment. -/
theorem query_state_spec_witness :
    (∀ v, queryFold ⟨[(c8Base, Value.Account c8Account)], c8gs.history⟩
        (Value.Account c8Account) [[97]] = .ok v →
      query_state c8gs [9] c8Base [[97]] = .ok v) ∧
    (∀ e, queryFold ⟨[(c8Base, Value.Account c8Account)], c8gs.history⟩
        (Value.Account c8Account) [[97]] = .error e →
      query_state c8gs [9] c8Base [[97]] = .error (.ValueNotFound [97])) := by
  have h := query_state_spec c8gs [9] c8Base [[97]]
    [(c8Base, Value.Account c8Account)] (Value.Account c8Account) rfl rfl
  exact ⟨h.1, fun e he => by rw [h.2 e he]; rfl⟩

/-! ## C10: the genesis effects invariant. -/

theorem assocInsert_mem [DecidableEq κ] (l : List (κ × ν)) (k : κ) (v : ν) :
    ∀ q ∈ assocInsert l k v, q ∈ l ∨ q = (k, v) := by
  induction l with
  | nil =>
      intro q hq
      rw [assocInsert] at hq
      rcases List.mem_singleton.mp hq with hq2
      exact Or.inr hq2
  | cons p rest ih =>
      intro q hq
      rw [assocInsert] at hq
      split at hq
      · rcases List.mem_cons.mp hq with hq2 | hq2
        · exact Or.inr hq2
        · exact Or.inl (List.mem_cons_of_mem p hq2)
      · rcases List.mem_cons.mp hq with hq2 | hq2
        · exact Or.inl (hq2 ▸ List.mem_cons_self p rest)
        · rcases ih q hq2 with hq3 | hq3
          · exact Or.inl (List.mem_cons_of_mem p hq3)
          · exact Or.inr hq3

theorem normalize_genesisKeyStep (k : Key) :
    Key.normalize (genesisKeyStep k) = genesisKeyStep k := by
  cases k <;> rfl

theorem genesisEffects_foldl_invariant :
    ∀ (entries : List (Key × GValue)) (ee : ExecutionEffect),
      (∀ p ∈ ee.ops, p.2 = Op.Write ∧ Key.normalize p.1 = p.1) →
      (∀ p ∈ ee.transforms, (∃ v, p.2 = GTransform.Write v) ∧ Key.normalize p.1 = p.1) →
      (∀ p ∈ (entries.foldl genesisEffectStep ee).ops,
        p.2 = Op.Write ∧ Key.normalize p.1 = p.1) ∧
      (∀ p ∈ (entries.foldl genesisEffectStep ee).transforms,
        (∃ v, p.2 = GTransform.Write v) ∧ Key.normalize p.1 = p.1) := by
  intro entries
  induction entries with
  | nil =>
      intro ee h1 h2
      exact ⟨h1, h2⟩
  | cons p rest ih =>
      intro ee h1 h2
      rw [List.foldl_cons]
      apply ih
      · intro q hq
        rcases assocInsert_mem ee.ops (genesisKeyStep p.1) Op.Write q hq with hq2 | hq2
        · exact h1 q hq2
        · rw [hq2]
          exact ⟨rfl, normalize_genesisKeyStep p.1⟩
      · intro q hq
        rcases assocInsert_mem ee.transforms (genesisKeyStep p.1)
            (GTransform.Write p.2) q hq with hq2 | hq2
        · exact h2 q hq2
        · rw [hq2]
          exact ⟨⟨p.2, rfl⟩, normalize_genesisKeyStep p.1⟩

/-- C10: every entry of the `ExecutionEffect` produced by
`create_genesis_effects` is recorded under a normalized key (URef keys
stripped of their rights) and pairs an `Op::Write` with a
`Transform::Write` — never `Identity`, `Add*` or `AddKeys` — and every
URef allocated by `create_uref` during genesis carries
`READ_ADD_WRITE`. -/
theorem genesis_effects_write_only (hash : Bytes → Bytes) (rngStream : Nat → Bytes)
    (genesis_account_addr : Bytes) (initial_tokens : Nat) (mint_code_bytes : Bytes)
    (pos_code_bytes : Bytes) (genesis_validators : List (Bytes × Nat))
    (protocol_version : Nat) :
    (∀ p ∈ (create_genesis_effects hash rngStream genesis_account_addr initial_tokens
        mint_code_bytes pos_code_bytes genesis_validators protocol_version).ops,
      p.2 = Op.Write ∧ Key.normalize p.1 = p.1) ∧
    (∀ p ∈ (create_genesis_effects hash rngStream genesis_account_addr initial_tokens
        mint_code_bytes pos_code_bytes genesis_validators protocol_version).transforms,
      (∃ v, p.2 = GTransform.Write v) ∧ Key.normalize p.1 = p.1) ∧
    (∀ rng, (create_uref rng).1.access_rights = AccessRights.READ_ADD_WRITE) := by
  have h := genesisEffects_foldl_invariant
    ((create_mint_effects hash ⟨rngStream, 0⟩ genesis_account_addr initial_tokens
        mint_code_bytes protocol_version).1 ++
      (create_pos_effects (create_mint_effects hash ⟨rngStream, 0⟩ genesis_account_addr
        initial_tokens mint_code_bytes protocol_version).2 pos_code_bytes
        genesis_validators protocol_version).1)
    ⟨[], []⟩ (fun q hq => by cases hq) (fun q hq => by cases hq)
  rw [create_genesis_effects]
  exact ⟨h.1, h.2, fun rng => rfl⟩

end CasperLabs
